import Mathlib

/-!
# Camera ingest service (`src/code.cpp`): pacing, connection lifecycle, file names

A shallow embedding of `main`, `getCurrentTimestamp` and the two loops of
`src/code.cpp`.

Modelling conventions

* `double` values are `Dbl`: a rational that is an IEEE binary64 number, an
  infinity or NaN.  Every arithmetic result is rounded to the nearest binary64
  number, ties to even, with gradual underflow and overflow to infinity
  (`roundNearest`, `Dbl.ofRat`).  Zero carries no sign: the sign of a zero only
  chooses the sign of an infinity, and the program converts both infinities
  alike.
* `std::stod` is an input: a variable is unset, set to text `std::stod`
  rejects (the exception is not caught, the process is terminated), or parsed
  to a `Dbl`.
* `std::chrono::steady_clock` time points are integers counting nanoseconds;
  `now + std::chrono::milliseconds(k)` is `now + k * 1000000`.
* The `int` counters `savedFrames` and `framesThisSecond` are 32-bit: an
  increment is reduced modulo `2^32` into the range of `int` (`wrapInt32`).
  C++ leaves the overflow undefined; two's-complement wrap-around is what the
  increment compiles to.
* The conversion `(int)frameIntervalMs` is undefined in C++ when the truncated
  value does not fit an `int`; `castToInt` returns `none` there and a loop
  iteration that needs the value has no successor state.
* The collaborators (OpenCV capture and `imwrite`, the clocks, `std::localtime`,
  `getenv`, `stat`/`mkdir`, signal delivery) are inputs: every answer they give
  is a field of the input records, and every call made to them is recorded in
  a ghost history `log`.
-/

namespace CameraIngest

/-! ## Double-precision numbers -/

/-- A value of type `double`. -/
inductive Dbl
  /-- A finite number. -/
  | fin (q : ℚ)
  | posInf
  | negInf
  | nan
deriving DecidableEq

/-- The whole number nearest to `r`; a tie goes to the even neighbour. -/
def roundHalfEven (r : ℚ) : Int :=
  if r - ⌊r⌋ < 1 / 2 then ⌊r⌋
  else if 1 / 2 < r - ⌊r⌋ then ⌊r⌋ + 1
  else if ⌊r⌋ % 2 = 0 then ⌊r⌋ else ⌊r⌋ + 1

/-- The exponent `g` of the binary64 grid at magnitude `a`: neighbouring
doubles there are `2^g` apart (53-bit significand, least exponent `-1022`). -/
def gridExponent (a : ℚ) : Int := max (Int.log 2 a) (-1022) - 52

/-- Rounding to the binary64 grid, to nearest and ties to even, before the
overflow test. -/
def roundNearest (x : ℚ) : ℚ :=
  if x = 0 then 0 else (roundHalfEven (x / 2 ^ gridExponent |x|) : ℚ) * 2 ^ gridExponent |x|

/-- The `double` an exact result `x` is delivered as: also the value
`std::stod` returns for a decimal text that denotes `x`. -/
def Dbl.ofRat (x : ℚ) : Dbl :=
  if 2 ^ 1024 ≤ roundNearest x then Dbl.posInf
  else if roundNearest x ≤ -2 ^ 1024 then Dbl.negInf
  else Dbl.fin (roundNearest x)

/-- The operator `/` on `double`.  A non-zero number over zero is given the sign
of the numerator. -/
def Dbl.div : Dbl → Dbl → Dbl
  | Dbl.nan, _ => Dbl.nan
  | _, Dbl.nan => Dbl.nan
  | Dbl.fin x, Dbl.fin y =>
    if y = 0 then
      if x = 0 then Dbl.nan else if 0 < x then Dbl.posInf else Dbl.negInf
    else Dbl.ofRat (x / y)
  | Dbl.fin _, Dbl.posInf => Dbl.fin 0
  | Dbl.fin _, Dbl.negInf => Dbl.fin 0
  | Dbl.posInf, Dbl.fin y => if 0 ≤ y then Dbl.posInf else Dbl.negInf
  | Dbl.negInf, Dbl.fin y => if 0 ≤ y then Dbl.negInf else Dbl.posInf
  | _, _ => Dbl.nan

/-- The comparison `x > 0` on `double` (false for NaN). -/
def Dbl.isPositive : Dbl → Bool
  | Dbl.fin q => decide (0 < q)
  | Dbl.posInf => true
  | _ => false

/-! ## Configuration (lines 45-60) -/

/-- What `std::getenv` and `std::stod` give for a numeric variable. -/
inductive EnvNumber
  /-- The call `std::getenv` returned a null pointer. -/
  | unset
  /-- The variable is set and `std::stod` throws on its text. -/
  | unparsable
  /-- The variable is set and `std::stod` returns `d`. -/
  | parsed (d : Dbl)
deriving DecidableEq

/-- The value `targetFPS` holds after lines 45-60, from `TARGET_FPS` and
`FRAME_INTERVAL`; `none` when `std::stod` throws (nothing catches the
exception).  `FRAME_INTERVAL` is read only when `TARGET_FPS` is unset. -/
def resolveTargetFPS (envFps envInterval : EnvNumber) : Option Dbl :=
  match envFps with
  | EnvNumber.parsed fps => some fps
  | EnvNumber.unparsable => none
  | EnvNumber.unset =>
    match envInterval with
    | EnvNumber.parsed interval =>
      if interval.isPositive then some (Dbl.div (Dbl.fin 1) interval) else some (Dbl.fin 30)
    | EnvNumber.unparsable => none
    | EnvNumber.unset => some (Dbl.fin 30)

/-! ## The pacing interval (lines 115 and 146) -/

/-- Smallest value of a 32-bit `int`. -/
def INT_MIN : Int := -2147483648

/-- Largest value of a 32-bit `int`. -/
def INT_MAX : Int := 2147483647

/-- An `int` result reduced modulo `2^32` into the range of `int`. -/
def wrapInt32 (n : Int) : Int := (n + 2147483648) % 4294967296 - 2147483648

/-- The C++ conversion `(int)x` of a `double`: the fractional part is
discarded (truncation toward zero); the behaviour is undefined (`none`) when
the truncated value is not representable, and for infinities and NaN. -/
def castToInt : Dbl → Option Int
  | Dbl.fin x =>
    if INT_MIN ≤ Int.tdiv x.num (x.den : Int) ∧ Int.tdiv x.num (x.den : Int) ≤ INT_MAX then
      some (Int.tdiv x.num (x.den : Int))
    else none
  | _ => none

/-- Line 115: `double frameIntervalMs = 1000.0 / targetFPS;`. -/
def frameIntervalMs (targetFPS : Dbl) : Dbl := Dbl.div (Dbl.fin 1000) targetFPS

/-- The number of milliseconds line 146 adds to `now`:
`(int)frameIntervalMs`. -/
def advanceMs (targetFPS : Dbl) : Option Int := castToInt (frameIntervalMs targetFPS)

/-- Nanoseconds in `std::chrono::milliseconds(k)`. -/
def msToNs (k : Int) : Int := k * 1000000

/-! ## Timestamps and file names (lines 21-31, 138-139) -/

/-- The fields of `std::tm` read by the format `%Y%m%d_%H%M%S`, as the numbers
that are printed (`year = tm_year + 1900`, `month = tm_mon + 1`). -/
structure Tm where
  year : Nat
  month : Nat
  day : Nat
  hour : Nat
  minute : Nat
  second : Nat
deriving DecidableEq

/-- Ranges of the fields `std::localtime` produces. -/
def Tm.valid (t : Tm) : Prop :=
  1 ≤ t.month ∧ t.month ≤ 12 ∧ 1 ≤ t.day ∧ t.day ≤ 31 ∧
  t.hour ≤ 23 ∧ t.minute ≤ 59 ∧ t.second ≤ 60

instance (t : Tm) : Decidable t.valid := by
  unfold Tm.valid; infer_instance

/-- Decimal digits of a number, most significant first. -/
def decimal (n : Nat) : List Char := Nat.toDigits 10 n

/-- Right-adjusts `s` in a field of width `w` filled with `c`
(`std::setw(w)` with `std::setfill(c)`); longer text is not cut. -/
def setw (w : Nat) (c : Char) (s : List Char) : List Char :=
  List.replicate (w - s.length) c ++ s

/-- The conversions `%m %d %H %M %S`: two digits, zero padded. -/
def twoDigits (n : Nat) : List Char := setw 2 '0' (decimal n)

/-- What `std::put_time(tm, "%Y%m%d_%H%M%S")` writes. -/
def putTime (t : Tm) : List Char :=
  decimal t.year ++ twoDigits t.month ++ twoDigits t.day ++ ['_'] ++
  twoDigits t.hour ++ twoDigits t.minute ++ twoDigits t.second

/-- Lines 21-31.  `t` is `std::localtime` of the current `system_clock`
instant and `epochMs` that instant in milliseconds since the epoch (not
negative); the suffix is `ms.count()` with `ms = epochMs % 1000`, printed
with `setfill('0')` and `setw(3)`. -/
def getCurrentTimestamp (t : Tm) (epochMs : Nat) : String :=
  String.mk (putTime t ++ ['_'] ++ setw 3 '0' (decimal (epochMs % 1000)))

/-- Line 139: `outputDir + "/frame_" + timestamp + ".jpg"`. -/
def frameFilename (outputDir : String) (timestamp : String) : String :=
  outputDir ++ "/frame_" ++ timestamp ++ ".jpg"

/-- Lines 22-30 from the instant read at line 22: `time` is the instant in
whole seconds (`to_time_t`), `localtime` the answer of `std::localtime` for
each value of `time` (the time-zone rules in force), `ms` the instant in
milliseconds modulo 1000. -/
def timestampAt (localtime : Nat → Tm) (epochMs : Nat) : String :=
  getCurrentTimestamp (localtime (epochMs / 1000)) epochMs

/-- The (year, month, day, hour, minute, second, millisecond) tuple of a
wall-clock reading. -/
def stampKey (t : Tm) (epochMs : Nat) : List Nat :=
  [t.year, t.month, t.day, t.hour, t.minute, t.second, epochMs % 1000]

/-! ## Calls made to the collaborators -/

/-- One call to a collaborator, with the answer it gave. -/
inductive Effect
  /-- Line 70, `createDirectory(outputDir)`. -/
  | createDirectory (ok : Bool)
  /-- The call `cap.open(rtspUrl, cv::CAP_FFMPEG)` and the `cap.isOpened()` after it. -/
  | openStream (ok : Bool)
  /-- A `std::this_thread::sleep_for(std::chrono::seconds(n))`. -/
  | sleep (seconds : Nat)
  /-- The call `cap.set(cv::CAP_PROP_BUFFERSIZE, n)`. -/
  | setBufferSize (n : Nat)
  /-- Line 121-123, `cap.read(frame)`; `ok` is `ret && !frame.empty()`. -/
  | read (ok : Bool)
  /-- The call `cap.release()`. -/
  | release
  /-- Line 141, `cv::imwrite(filename, frame, compressionParams)`, decided at
  steady-clock time `now`. -/
  | imwrite (now : Int) (filename : String) (ok : Bool)
  /-- Line 151, the per-second report. -/
  | heartbeat (frames : Int)
  /-- Line 158, the total printed when the service stops. -/
  | reportTotal (saved : Int)
deriving DecidableEq

/-- Number of `imwrite` calls in a history. -/
def persistAttempts : List Effect → Nat
  | [] => 0
  | Effect.imwrite _ _ _ :: rest => persistAttempts rest + 1
  | _ :: rest => persistAttempts rest

/-- Number of `imwrite` calls in a history that returned `true`. -/
def successfulWrites : List Effect → Nat
  | [] => 0
  | Effect.imwrite _ _ true :: rest => successfulWrites rest + 1
  | _ :: rest => successfulWrites rest

/-- The steady-clock times at which the `imwrite` calls of a history were
decided, oldest first. -/
def emitTimes : List Effect → List Int
  | [] => []
  | Effect.imwrite now _ _ :: rest => now :: emitTimes rest
  | _ :: rest => emitTimes rest

/-- Number of `cap.open` calls in a history. -/
def openAttempts : List Effect → Nat
  | [] => 0
  | Effect.openStream _ :: rest => openAttempts rest + 1
  | _ :: rest => openAttempts rest

/-! ## The capture loop (lines 108-155) -/

/-- The variables of the capture loop, and the history of calls so far. -/
structure LoopState where
  /-- Line 109, an `int`: set to 0, changed only by the increment of line 142,
  which wraps (`wrapInt32`). -/
  savedFrames : Int
  /-- Line 113, an `int`: set to 0, incremented with wrap-around at line 143,
  reset at line 152. -/
  framesThisSecond : Int
  /-- Line 112, a `steady_clock` time point in nanoseconds. -/
  startTime : Int
  /-- Line 116, a `steady_clock` time point in nanoseconds. -/
  nextFrameTime : Int
  /-- The calls made so far. -/
  log : List Effect
deriving DecidableEq

/-- What the collaborators answer during one iteration of the capture loop. -/
structure IterInput where
  /-- Line 121, the value of `cap.read(frame)`. -/
  ret : Bool
  /-- Line 123, `frame.empty()`. -/
  frameEmpty : Bool
  /-- Line 128, `cap.isOpened()` after the reopen of line 127. -/
  reopenOk : Bool
  /-- Line 136, `steady_clock::now()`. -/
  now : Int
  /-- Line 28, `std::localtime` of the wall clock read at line 22. -/
  wallTm : Tm
  /-- Line 24, the wall clock of line 22 in milliseconds since the epoch. -/
  wallMs : Nat
  /-- Line 141, the value of `cv::imwrite`. -/
  writeOk : Bool
  /-- Line 153, `steady_clock::now()`. -/
  restart : Int
deriving DecidableEq

/-- Lines 124-133: the branch taken when the read failed or the frame is
empty.  No loop variable changes; the `continue` returns to line 120. -/
def reconnectStep (st : LoopState) (i : IterInput) : LoopState :=
  if !i.reopenOk then
    { st with log := st.log ++ [Effect.read false, Effect.release, Effect.sleep 1,
                                Effect.openStream false, Effect.sleep 2] }
  else
    { st with log := st.log ++ [Effect.read false, Effect.release, Effect.sleep 1,
                                Effect.openStream true, Effect.setBufferSize 1] }

/-- Lines 137-147: the emit decision at time `i.now`. -/
def emitStep (outputDir : String) (targetFPS : Dbl) (st : LoopState) (i : IterInput) :
    Option LoopState :=
  if i.now ≥ st.nextFrameTime then
    let timestamp := getCurrentTimestamp i.wallTm i.wallMs
    let filename := frameFilename outputDir timestamp
    let st1 : LoopState :=
      if i.writeOk then
        { st with savedFrames := wrapInt32 (st.savedFrames + 1),
                  framesThisSecond := wrapInt32 (st.framesThisSecond + 1) }
      else st
    match advanceMs targetFPS with
    | none => none
    | some k =>
      some { st1 with nextFrameTime := i.now + msToNs k,
                      log := st.log ++ [Effect.imwrite i.now filename i.writeOk] }
  else some st

/-- Lines 149-154: the per-second report.  `elapsed` is the whole number of
seconds in `now - startTime`. -/
def heartbeatStep (st : LoopState) (i : IterInput) : LoopState :=
  if Int.tdiv (i.now - st.startTime) 1000000000 ≥ 1 then
    { st with framesThisSecond := 0, startTime := i.restart,
              log := st.log ++ [Effect.heartbeat st.framesThisSecond] }
  else st

/-- One pass through the body of `while (running)` (lines 121-154).  `none`
stands for the undefined conversion at line 146. -/
def iteration (outputDir : String) (targetFPS : Dbl) (st : LoopState) (i : IterInput) :
    Option LoopState :=
  if !i.ret || i.frameEmpty then
    some (reconnectStep st i)
  else
    match emitStep outputDir targetFPS { st with log := st.log ++ [Effect.read true] } i with
    | none => none
    | some st1 => some (heartbeatStep st1 i)

/-- Where the process is after the inputs supplied to it are used up. -/
inductive ProcessResult
  /-- The function `main` returned `code`; `log` is the complete history. -/
  | exited (code : Int) (log : List Effect)
  /-- Control is at line 120, about to test `running`. -/
  | inLoop (st : LoopState)
  /-- The run reached the undefined conversion of line 146. -/
  | undefined
  /-- The call `std::stod` threw at line 54 or 56 and the process was terminated. -/
  | aborted
deriving DecidableEq

/-- Lines 120-159.  Each input carries the value of `running` read at line 120
at the top of that iteration, then the answers for the body. -/
def captureLoop (outputDir : String) (targetFPS : Dbl) (st : LoopState) :
    List (Bool × IterInput) → ProcessResult
  | [] => ProcessResult.inLoop st
  | (running, i) :: rest =>
    if running then
      match iteration outputDir targetFPS st i with
      | none => ProcessResult.undefined
      | some st1 => captureLoop outputDir targetFPS st1 rest
    else
      ProcessResult.exited 0 (st.log ++ [Effect.release, Effect.reportTotal st.savedFrames])

/-- The history a result carries (empty for `undefined` and `aborted`). -/
def ProcessResult.log : ProcessResult → List Effect
  | ProcessResult.exited _ log => log
  | ProcessResult.inLoop st => st.log
  | ProcessResult.undefined => []
  | ProcessResult.aborted => []

/-! ## The initial connection (lines 75-97) -/

/-- Line 77. -/
def maxReconnectAttempts : Nat := 10

/-- The variables of the connection loop. -/
structure ConnectState where
  /-- The value of `cap.isOpened()`. -/
  opened : Bool
  reconnectAttempts : Nat
  log : List Effect
deriving DecidableEq

/-- Lines 79-92.  `budget` is `maxReconnectAttempts - reconnectAttempts`, so
`budget = 0` is the failure of the test `reconnectAttempts <
maxReconnectAttempts`.  `running k` is the flag read at line 79 and `opens k`
the value of `cap.isOpened()` at line 83, both in the iteration entered with
`reconnectAttempts = k`. -/
def connectLoop (running opens : Nat → Bool) : Nat → ConnectState → ConnectState
  | 0, c => c
  | budget + 1, c =>
    if running c.reconnectAttempts then
      if opens c.reconnectAttempts then
        { c with opened := true, log := c.log ++ [Effect.openStream true] }
      else
        connectLoop running opens budget
          { c with reconnectAttempts := c.reconnectAttempts + 1,
                   log := c.log ++ [Effect.openStream false, Effect.sleep 3] }
    else c

/-! ## The whole program (lines 41-160) -/

/-- Everything the environment supplies to one run of `main`. -/
structure MainInput where
  /-- The variable `OUTPUT_DIR`, when set. -/
  envDir : Option String
  /-- The variable `TARGET_FPS`, as line 53-54 finds it. -/
  envFps : EnvNumber
  /-- The variable `FRAME_INTERVAL`, as line 55-56 finds it. -/
  envInterval : EnvNumber
  /-- Line 70, the value of `createDirectory(outputDir)`. -/
  dirOk : Bool
  /-- The flag `running` at line 79, per iteration. -/
  connectRunning : Nat → Bool
  /-- The value of `cap.isOpened()` at line 83, per iteration. -/
  connectOpens : Nat → Bool
  /-- Line 112, `steady_clock::now()`. -/
  startTime : Int
  /-- Line 116, `steady_clock::now()`. -/
  firstDeadline : Int
  /-- Iterations of the capture loop. -/
  iterations : List (Bool × IterInput)

/-- The state in which line 120 is first reached. -/
def initialLoopState (startTime firstDeadline : Int) (log : List Effect) : LoopState :=
  { savedFrames := 0, framesThisSecond := 0, startTime := startTime,
    nextFrameTime := firstDeadline, log := log }

/-- The state of the connection loop when line 79 is first reached. -/
def initialConnectState : ConnectState :=
  { opened := false, reconnectAttempts := 0, log := [Effect.createDirectory true] }

/-- The state of the connection loop when line 94 is reached. -/
def connectResult (w : MainInput) : ConnectState :=
  connectLoop w.connectRunning w.connectOpens maxReconnectAttempts initialConnectState

/-- The function `main`.  The messages written to `std::cout`/`std::cerr` and
the read of `cv::CAP_PROP_FPS` (lines 101-106, logged only) are left out. -/
def main (w : MainInput) : ProcessResult :=
  let outputDir := w.envDir.getD "/app/frames"
  match resolveTargetFPS w.envFps w.envInterval with
  | none => ProcessResult.aborted
  | some targetFPS =>
    if !w.dirOk then
      ProcessResult.exited 1 [Effect.createDirectory false]
    else
      let c := connectResult w
      if !c.opened then
        ProcessResult.exited 1 c.log
      else
        captureLoop outputDir targetFPS
          (initialLoopState w.startTime w.firstDeadline (c.log ++ [Effect.setBufferSize 1]))
          w.iterations

/-! ## Notions used to state the properties -/

/-- The frame of this iteration is good and its emit is due. -/
def Due (st : LoopState) (i : IterInput) : Prop :=
  (i.ret = true ∧ i.frameEmpty = false) ∧ st.nextFrameTime ≤ i.now

instance (st : LoopState) (i : IterInput) : Decidable (Due st i) := by
  unfold Due; infer_instance

/-- What one iteration does to the variables the claims speak about. -/
structure StepSummary (targetFPS : Dbl) (st t : LoopState) (i : IterInput) : Prop where
  saved : t.savedFrames =
    if Due st i ∧ i.writeOk = true then wrapInt32 (st.savedFrames + 1) else st.savedFrames
  next : ∀ k, advanceMs targetFPS = some k →
    t.nextFrameTime = if Due st i then i.now + msToNs k else st.nextFrameTime
  attempts : persistAttempts t.log = persistAttempts st.log + (if Due st i then 1 else 0)
  writes : successfulWrites t.log =
    successfulWrites st.log + (if Due st i ∧ i.writeOk = true then 1 else 0)
  times : emitTimes t.log = emitTimes st.log ++ (if Due st i then [i.now] else [])

/-- The state `u` is reached from `st` by a number of iterations of the loop body. -/
inductive Reaches (outputDir : String) (targetFPS : Dbl) : LoopState → LoopState → Prop
  | here (st : LoopState) : Reaches outputDir targetFPS st st
  | step {st t u : LoopState} (i : IterInput) :
      iteration outputDir targetFPS st i = some t → Reaches outputDir targetFPS t u →
      Reaches outputDir targetFPS st u

/-- The invariant behind the spacing of emits. -/
def Spaced (k : Int) (st : LoopState) : Prop :=
  (emitTimes st.log).Pairwise (fun a b => a + msToNs k ≤ b) ∧
  ∀ a ∈ emitTimes st.log, a + msToNs k ≤ st.nextFrameTime

/-- The counter `savedFrames` is the number of successful writes, as an `int`. -/
def Counted (st : LoopState) : Prop :=
  st.savedFrames = wrapInt32 (successfulWrites st.log)

/-- Both counters hold values of type `int`. -/
def CountersFit (st : LoopState) : Prop :=
  (INT_MIN ≤ st.savedFrames ∧ st.savedFrames ≤ INT_MAX) ∧
  (INT_MIN ≤ st.framesThisSecond ∧ st.framesThisSecond ≤ INT_MAX)

/-- The first `n` iterations of a run in which the shutdown flag stays unset
and iteration `j` receives the answers `src j`. -/
def firstPulls (src : Nat → IterInput) (n : Nat) : List (Bool × IterInput) :=
  (List.range n).map (fun j => (true, src j))

/-- A camera that delivers a good frame every `period` nanoseconds from `t0`
on, every write succeeding. -/
def steadySource (t0 period : Int) (j : Nat) : IterInput :=
  { ret := true, frameEmpty := false, reopenOk := true, now := t0 + j * period,
    wallTm := { year := 2024, month := 1, day := 1, hour := 0, minute := 0, second := 0 },
    wallMs := 0, writeOk := true, restart := t0 + j * period }

/-- Frames pulled per frame written when frames arrive every `period`
nanoseconds and the deadline advances by `k` milliseconds: the least `m ≥ 1`
with `m * period ≥ msToNs k`. -/
def framesPerEmit (k period : Int) : Nat :=
  max 1 (Int.toNat ((msToNs k + period - 1) / period))

/-- Order of two texts character by character, as `std::string` compares. -/
def lexLess (s t : String) : Prop := List.Lex (fun a b : Char => a < b) s.data t.data

instance (s t : String) : Decidable (lexLess s t) := by
  unfold lexLess; infer_instance

/-- Chronological order of two (year, ..., millisecond) tuples. -/
def earlier (k1 k2 : List Nat) : Prop := List.Lex (fun a b : Nat => a < b) k1 k2

instance (k1 k2 : List Nat) : Decidable (earlier k1 k2) := by
  unfold earlier; infer_instance

/-! ## Sample runs -/

/-- A good frame pulled at steady-clock time `now`, stamped 2024-05-17
09:30:00.123 by the wall clock. -/
def sampleFrame (now : Int) (writeOk : Bool) : IterInput :=
  { ret := true, frameEmpty := false, reopenOk := false, now := now,
    wallTm := { year := 2024, month := 5, day := 17, hour := 9, minute := 30, second := 0 },
    wallMs := 1715938200123, writeOk := writeOk, restart := now }

/-- The calendar date (year, month, day) of the day `z` days after 1970-01-01. -/
def civilFromDays (z : Nat) : Nat × Nat × Nat :=
  let era := (z + 719468) / 146097
  let doe := (z + 719468) % 146097
  let yoe := (doe - doe / 1460 + doe / 36524 - doe / 146096) / 365
  let doy := doe - (365 * yoe + yoe / 4 - yoe / 100)
  let mp := (5 * doy + 2) / 153
  let d := doy - (153 * mp + 2) / 5 + 1
  let m := if mp < 10 then mp + 3 else mp - 9
  (yoe + era * 400 + (if m ≤ 2 then 1 else 0), m, d)

/-- The answer of `std::localtime` in a zone that is `offset` seconds ahead of UTC. -/
def localtimeAtOffset (offset : Nat) (epochSec : Nat) : Tm :=
  let s := epochSec + offset
  let date := civilFromDays (s / 86400)
  { year := date.1, month := date.2.1, day := date.2.2,
    hour := s % 86400 / 3600, minute := s % 3600 / 60, second := s % 60 }

/-- The answers of `std::localtime` with `TZ=Europe/Berlin` from 31 March 2024
to 30 March 2025: two hours ahead of UTC until 27 October 2024 01:00:00 UTC
(epoch second 1729990800), one hour ahead from then on. -/
def berlinLocaltime (epochSec : Nat) : Tm :=
  localtimeAtOffset (if epochSec < 1729990800 then 7200 else 3600) epochSec

/-- A run in which the first open fails and the shutdown flag is set during the
3-second wait that follows: `running` is read as `false` at line 79. -/
def shutdownDuringConnect : MainInput :=
  { envDir := none, envFps := EnvNumber.unset, envInterval := EnvNumber.unset, dirOk := true,
    connectRunning := fun j => decide (j < 1), connectOpens := fun _ => false,
    startTime := 0, firstDeadline := 0, iterations := [] }

/-- A run in which the third open succeeds and the capture loop is entered. -/
def connectsOnThirdAttempt : MainInput :=
  { envDir := none, envFps := EnvNumber.unset, envInterval := EnvNumber.unset, dirOk := true,
    connectRunning := fun _ => true, connectOpens := fun j => decide (j = 2),
    startTime := 0, firstDeadline := 0, iterations := [] }

/-! ## Rounding -/

theorem roundHalfEven_sub_le (r : ℚ) : |(roundHalfEven r : ℚ) - r| ≤ 1 / 2 := by
  have h1 := Int.floor_le r
  have h2 := Int.lt_floor_add_one r
  unfold roundHalfEven
  split_ifs with ha hb hc
  · rw [abs_le]; constructor <;> linarith
  · rw [abs_le]; push_cast; constructor <;> linarith
  · have : r - ⌊r⌋ = 1 / 2 := le_antisymm (not_lt.mp hb) (not_lt.mp ha)
    rw [abs_le]; constructor <;> linarith
  · have : r - ⌊r⌋ = 1 / 2 := le_antisymm (not_lt.mp hb) (not_lt.mp ha)
    rw [abs_le]; push_cast; constructor <;> linarith

theorem roundHalfEven_eq_of_close (r : ℚ) (m : Int) (h : |r - (m : ℚ)| < 1 / 2) :
    roundHalfEven r = m := by
  rw [abs_lt] at h
  obtain ⟨h1, h2⟩ := h
  by_cases hm : (m : ℚ) ≤ r
  · have hfl : ⌊r⌋ = m := by
      rw [Int.floor_eq_iff]; constructor
      · exact hm
      · linarith
    unfold roundHalfEven
    rw [hfl, if_pos (by linarith)]
  · have hfl : ⌊r⌋ = m - 1 := by
      rw [Int.floor_eq_iff]; push_cast; constructor <;> linarith
    unfold roundHalfEven
    rw [hfl, if_neg (by push_cast; linarith), if_pos (by push_cast; linarith)]
    ring

theorem roundHalfEven_intCast (n : Int) : roundHalfEven (n : ℚ) = n :=
  roundHalfEven_eq_of_close _ n (by simp)

theorem roundHalfEven_nonneg (r : ℚ) (h : 0 ≤ r) : 0 ≤ roundHalfEven r := by
  have h0 : 0 ≤ ⌊r⌋ := Int.floor_nonneg.mpr h
  unfold roundHalfEven
  split_ifs <;> omega

theorem two_zpow_pos (g : Int) : (0 : ℚ) < 2 ^ g := zpow_pos (by norm_num) g

/-- The rounded value is within half a grid step of the exact one. -/
theorem roundNearest_sub_le (x : ℚ) :
    |roundNearest x - x| ≤ 2 ^ gridExponent |x| / 2 := by
  unfold roundNearest
  by_cases hx : x = 0
  · rw [if_pos hx, hx]
    simp only [sub_self, abs_zero]
    have := two_zpow_pos (gridExponent 0)
    linarith
  · rw [if_neg hx]
    have hu := two_zpow_pos (gridExponent |x|)
    have h := roundHalfEven_sub_le (x / 2 ^ gridExponent |x|)
    have hmul : (roundHalfEven (x / 2 ^ gridExponent |x|) : ℚ) * 2 ^ gridExponent |x| - x =
        ((roundHalfEven (x / 2 ^ gridExponent |x|) : ℚ) - x / 2 ^ gridExponent |x|) *
          2 ^ gridExponent |x| := by
      field_simp
    rw [hmul, abs_mul, abs_of_pos hu]
    have := mul_le_mul_of_nonneg_right h (le_of_lt hu)
    linarith

theorem roundNearest_nonneg (x : ℚ) (h : 0 ≤ x) : 0 ≤ roundNearest x := by
  unfold roundNearest
  split_ifs
  · exact le_refl _
  · have hu := two_zpow_pos (gridExponent |x|)
    have : (0 : ℚ) ≤ (roundHalfEven (x / 2 ^ gridExponent |x|) : ℚ) := by
      exact_mod_cast roundHalfEven_nonneg _ (div_nonneg h (le_of_lt hu))
    exact mul_nonneg this (le_of_lt hu)

theorem gridExponent_eq (a : ℚ) (e : Int) (h1 : (2 : ℚ) ^ e ≤ a) (h2 : a < 2 ^ (e + 1))
    (he : -1022 ≤ e) : gridExponent a = e - 52 := by
  have ha : 0 < a := lt_of_lt_of_le (two_zpow_pos e) h1
  have hlog : Int.log 2 a = e := by
    apply le_antisymm
    · have := (Int.lt_zpow_iff_log_lt (b := 2) (by norm_num) ha (x := e + 1)).mp
        (by simpa using h2)
      omega
    · exact (Int.zpow_le_iff_le_log (b := 2) (by norm_num) ha).mp (by simpa using h1)
  unfold gridExponent
  rw [hlog, max_eq_left he]

/-- In the normal range a grid step is at most `a / 2^52`. -/
theorem grid_step_le (a : ℚ) (h : (2 : ℚ) ^ (-1022 : Int) ≤ a) :
    (2 : ℚ) ^ gridExponent a ≤ a / 2 ^ 52 := by
  have ha : 0 < a := lt_of_lt_of_le (two_zpow_pos _) h
  have hlog : -1022 ≤ Int.log 2 a :=
    (Int.zpow_le_iff_le_log (b := 2) (by norm_num) ha).mp (by simpa using h)
  have hle : ((2 : ℕ) : ℚ) ^ Int.log 2 a ≤ a := Int.zpow_log_le_self (by norm_num) ha
  unfold gridExponent
  rw [max_eq_left hlog, zpow_sub₀ (by norm_num : (2 : ℚ) ≠ 0)]
  have h52 : (2 : ℚ) ^ (52 : Int) = 2 ^ 52 := by norm_cast
  rw [h52]
  have : (2 : ℚ) ^ Int.log 2 a ≤ a := by simpa using hle
  exact div_le_div_of_nonneg_right this (by positivity)

/-- One rounding has relative error at most `2^-53` in the normal range. -/
theorem roundNearest_relative (x : ℚ) (h : (2 : ℚ) ^ (-1022 : Int) ≤ |x|) :
    |roundNearest x - x| ≤ |x| / 2 ^ 53 := by
  have h1 := roundNearest_sub_le x
  have h2 := grid_step_le |x| h
  calc |roundNearest x - x| ≤ 2 ^ gridExponent |x| / 2 := h1
    _ ≤ |x| / 2 ^ 52 / 2 := by linarith
    _ = |x| / 2 ^ 53 := by ring

theorem roundNearest_eq_of_close (x : ℚ) (g m : Int) (hx : x ≠ 0)
    (hg : gridExponent |x| = g) (hclose : |x / 2 ^ g - (m : ℚ)| < 1 / 2) :
    roundNearest x = (m : ℚ) * 2 ^ g := by
  unfold roundNearest
  rw [if_neg hx, hg, roundHalfEven_eq_of_close _ m hclose]

/-- Whole numbers below `2^53` in size are doubles. -/
theorem roundNearest_intCast (n : Int) (h : |n| < 2 ^ 53) : roundNearest (n : ℚ) = n := by
  by_cases hn : n = 0
  · subst hn; simp [roundNearest]
  · have hnq : (n : ℚ) ≠ 0 := by exact_mod_cast hn
    have habs1 : (1 : ℚ) ≤ |(n : ℚ)| := by
      have : (1 : Int) ≤ |n| := Int.one_le_abs hn
      exact_mod_cast this
    have hapos : (0 : ℚ) < |(n : ℚ)| := lt_of_lt_of_le one_pos habs1
    have hlog0 : 0 ≤ Int.log 2 |(n : ℚ)| :=
      (Int.zpow_le_iff_le_log (b := 2) (by norm_num) hapos).mp (by simpa using habs1)
    have hlog52 : Int.log 2 |(n : ℚ)| < 53 := by
      apply (Int.lt_zpow_iff_log_lt (b := 2) (by norm_num) hapos).mp
      have h53 : ((2 : ℕ) : ℚ) ^ (53 : Int) = 2 ^ 53 := by norm_num
      rw [h53]
      exact_mod_cast h
    have hg : gridExponent |(n : ℚ)| = Int.log 2 |(n : ℚ)| - 52 := by
      unfold gridExponent; rw [max_eq_left (by omega)]
    obtain ⟨j, hj⟩ : ∃ j : Nat, (j : Int) = 52 - Int.log 2 |(n : ℚ)| :=
      ⟨(52 - Int.log 2 |(n : ℚ)|).toNat, Int.toNat_of_nonneg (by omega)⟩
    have hgj : gridExponent |(n : ℚ)| = -(j : Int) := by rw [hg, hj]; ring
    have hpow : (2 : ℚ) ^ (-(j : Int)) = 1 / 2 ^ j := by
      rw [zpow_neg, zpow_natCast, one_div]
    have hdiv : (n : ℚ) / 2 ^ (-(j : Int)) = ((n * 2 ^ j : Int) : ℚ) := by
      rw [hpow]; push_cast; field_simp
    rw [roundNearest_eq_of_close (n : ℚ) (-(j : Int)) (n * 2 ^ j) hnq hgj
      (by rw [hdiv]; simp)]
    rw [hpow]; push_cast; field_simp

/-- On an interval between two powers of two the rounding error is at most
half the grid step there. -/
theorem roundNearest_between (x : ℚ) (e : Int) (h1 : (2 : ℚ) ^ e ≤ |x|)
    (h2 : |x| < 2 ^ (e + 1)) (he : -1022 ≤ e) :
    |roundNearest x - x| ≤ 2 ^ (e - 52) / 2 := by
  have h := roundNearest_sub_le x
  rw [gridExponent_eq |x| e h1 h2 he] at h
  exact h

/-! ## Facts about the pacing interval -/

theorem wrapInt32_of_range (n : Int) (h1 : INT_MIN ≤ n) (h2 : n ≤ INT_MAX) :
    wrapInt32 n = n := by
  unfold INT_MIN at h1
  unfold INT_MAX at h2
  unfold wrapInt32
  omega

theorem wrapInt32_range (n : Int) : INT_MIN ≤ wrapInt32 n ∧ wrapInt32 n ≤ INT_MAX := by
  unfold INT_MIN INT_MAX wrapInt32
  omega

theorem wrapInt32_succ (n : Int) : wrapInt32 (wrapInt32 n + 1) = wrapInt32 (n + 1) := by
  unfold wrapInt32
  omega

theorem castToInt_of_nonneg (x : ℚ) (h0 : 0 ≤ x) (h1 : x < 2147483648) :
    castToInt (Dbl.fin x) = some ⌊x⌋ := by
  have hnum : 0 ≤ x.num := Rat.num_nonneg.mpr h0
  have hfl : Int.tdiv x.num (x.den : Int) = ⌊x⌋ := by
    rw [Int.tdiv_eq_ediv hnum (Int.natCast_nonneg _), Rat.floor_def]
  have hlo : (0 : Int) ≤ ⌊x⌋ := Int.floor_nonneg.mpr h0
  have hhi : ⌊x⌋ < 2147483648 := by
    have : ((⌊x⌋ : Int) : ℚ) < 2147483648 := lt_of_le_of_lt (Int.floor_le x) h1
    exact_mod_cast this
  unfold castToInt
  simp only [hfl, INT_MIN, INT_MAX]
  rw [if_pos]
  constructor <;> omega

theorem castToInt_nonneg (x : ℚ) (h0 : 0 ≤ x) (k : Int) (hk : castToInt (Dbl.fin x) = some k) :
    0 ≤ k := by
  have hnum : 0 ≤ x.num := Rat.num_nonneg.mpr h0
  simp only [castToInt] at hk
  split_ifs at hk
  simp only [Option.some.injEq] at hk
  subst hk
  rw [Int.tdiv_eq_ediv hnum (Int.natCast_nonneg _)]
  exact Int.ediv_nonneg hnum (Int.natCast_nonneg _)

theorem ofRat_of_small (x : ℚ) (h0 : 0 ≤ x) (h1 : roundNearest x < 2147483648) :
    Dbl.ofRat x = Dbl.fin (roundNearest x) := by
  have hr := roundNearest_nonneg x h0
  unfold Dbl.ofRat
  rw [if_neg, if_neg]
  · intro h
    have : (0 : ℚ) < 2 ^ 1024 := by positivity
    linarith
  · intro h
    have : (2147483648 : ℚ) ≤ 2 ^ 1024 := by norm_num
    linarith

theorem frameIntervalMs_fin (f : ℚ) (hf : f ≠ 0) :
    frameIntervalMs (Dbl.fin f) = Dbl.ofRat (1000 / f) := by
  unfold frameIntervalMs Dbl.div
  simp [hf]

theorem advanceMs_of_pos (f : ℚ) (hf : 0 < f)
    (hr : roundNearest (1000 / f) < 2147483648) :
    advanceMs (Dbl.fin f) = some ⌊roundNearest (1000 / f)⌋ := by
  have hx : (0 : ℚ) ≤ 1000 / f := by positivity
  unfold advanceMs
  rw [frameIntervalMs_fin f (ne_of_gt hf), ofRat_of_small _ hx hr]
  exact castToInt_of_nonneg _ (roundNearest_nonneg _ hx) hr

theorem advanceMs_nonneg (f : ℚ) (hf : 0 < f) (k : Int)
    (hk : advanceMs (Dbl.fin f) = some k) : 0 ≤ k := by
  have hx : (0 : ℚ) ≤ 1000 / f := by positivity
  unfold advanceMs at hk
  rw [frameIntervalMs_fin f (ne_of_gt hf)] at hk
  unfold Dbl.ofRat at hk
  split_ifs at hk
  · simp [castToInt] at hk
  · simp [castToInt] at hk
  · exact castToInt_nonneg _ (roundNearest_nonneg _ hx) k hk

theorem advanceMs_30 : advanceMs (Dbl.fin 30) = some 33 := by
  have hb := roundNearest_between (1000 / 30) 5 (by norm_num [abs_of_pos])
    (by norm_num [abs_of_pos]) (by norm_num)
  rw [abs_le] at hb
  have hsmall : (2 : ℚ) ^ ((5 : Int) - 52) / 2 < 1 / 1000 := by
    rw [show ((5 : Int) - 52) = -47 by norm_num, zpow_neg]
    norm_num
  rw [advanceMs_of_pos 30 (by norm_num) (by linarith [hb.2])]
  congr 1
  rw [Int.floor_eq_iff]
  constructor
  · norm_num; linarith [hb.1]
  · norm_num; linarith [hb.2]

theorem advanceMs_40 : advanceMs (Dbl.fin 40) = some 25 := by
  have h25 : roundNearest (1000 / 40) = 25 := by
    have := roundNearest_intCast 25 (by norm_num)
    norm_num at this ⊢
    exact this
  rw [advanceMs_of_pos 40 (by norm_num) (by rw [h25]; norm_num), h25]
  congr 1

/-! ## Sample values of the `double` arithmetic -/

/-- The rounded value from the binade of `x` and the nearest significand. -/
theorem roundNearest_eq (x : ℚ) (e m : Int) (h1 : (2 : ℚ) ^ e ≤ |x|)
    (h2 : |x| < 2 ^ (e + 1)) (he : -1022 ≤ e)
    (hc : |x / 2 ^ (e - 52) - (m : ℚ)| < 1 / 2) :
    roundNearest x = (m : ℚ) * 2 ^ (e - 52) := by
  have hx : x ≠ 0 := by
    intro h0
    rw [h0, abs_zero] at h1
    linarith [two_zpow_pos e]
  exact roundNearest_eq_of_close x (e - 52) m hx (gridExponent_eq |x| e h1 h2 he) hc

theorem ofRat_fin (x r : ℚ) (hr : roundNearest x = r) (h1 : r < 2 ^ 1024)
    (h2 : -2 ^ 1024 < r) : Dbl.ofRat x = Dbl.fin r := by
  unfold Dbl.ofRat
  rw [hr, if_neg (not_le.mpr h1), if_neg (not_le.mpr h2)]

/-- The `double` nearest to 0.1. -/
theorem double_one_tenth :
    Dbl.ofRat (1 / 10) = Dbl.fin (3602879701896397 / 36028797018963968) := by
  apply ofRat_fin
  · rw [roundNearest_eq (1 / 10) (-4) 7205759403792794 (by norm_num [abs_of_pos])
      (by norm_num [abs_of_pos]) (by norm_num) (by norm_num [abs_lt])]
    norm_num
  · norm_num
  · norm_num

theorem resolveTargetFPS_of_positive (interval : ℚ) (h : 0 < interval) :
    resolveTargetFPS EnvNumber.unset (EnvNumber.parsed (Dbl.fin interval)) =
      some (Dbl.ofRat (1 / interval)) := by
  simp [resolveTargetFPS, Dbl.isPositive, Dbl.div, h, ne_of_gt h]

theorem advanceMs_of_rounded (f r : ℚ) (k : Int) (hf : 0 < f)
    (hr : roundNearest (1000 / f) = r) (h1 : (k : ℚ) ≤ r) (h2 : r < (k : ℚ) + 1)
    (h3 : r < 2147483648) : advanceMs (Dbl.fin f) = some k := by
  rw [advanceMs_of_pos f hf (by rw [hr]; exact h3), hr]
  congr 1
  rw [Int.floor_eq_iff]
  exact ⟨h1, h2⟩

/-- With `TARGET_FPS=0.1` the deadline advances by 10000 ms: the `double`
quotient rounds up to 10000 although `1000 / f` is below it. -/
theorem advance_at_one_tenth_fps : advanceMs (Dbl.ofRat (1 / 10)) = some 10000 := by
  rw [double_one_tenth]
  apply advanceMs_of_rounded _ 10000 10000 (by norm_num)
  · rw [roundNearest_eq _ 13 5497558138880000 (by norm_num [abs_of_pos])
      (by norm_num [abs_of_pos]) (by norm_num) (by norm_num [abs_lt])]
    norm_num
  · norm_num
  · norm_num
  · norm_num

/-- With `FRAME_INTERVAL=3` the resolved rate is the `double` nearest to `1/3`. -/
theorem resolved_at_interval_three :
    resolveTargetFPS EnvNumber.unset (EnvNumber.parsed (Dbl.fin 3)) =
      some (Dbl.fin (6004799503160661 / 18014398509481984)) := by
  have h : Dbl.ofRat (1 / 3) = Dbl.fin (6004799503160661 / 18014398509481984) := by
    apply ofRat_fin
    · rw [roundNearest_eq (1 / 3) (-2) 6004799503160661 (by norm_num [abs_of_pos])
        (by norm_num [abs_of_pos]) (by norm_num) (by norm_num [abs_lt])]
      norm_num
    · norm_num
    · norm_num
  rw [resolveTargetFPS_of_positive 3 (by norm_num), h]

/-- With `FRAME_INTERVAL=0.055` the deadline advances by 54 ms. -/
theorem advance_at_interval_0055 :
    (resolveTargetFPS EnvNumber.unset (EnvNumber.parsed (Dbl.ofRat (55 / 1000)))).bind
      advanceMs = some 54 := by
  have h1 : Dbl.ofRat (55 / 1000) = Dbl.fin (7926335344172073 / 144115188075855872) := by
    apply ofRat_fin
    · rw [roundNearest_eq (55 / 1000) (-5) 7926335344172073 (by norm_num [abs_of_pos])
        (by norm_num [abs_of_pos]) (by norm_num) (by norm_num [abs_lt])]
      norm_num
    · norm_num
    · norm_num
  have h2 : Dbl.ofRat (1 / (7926335344172073 / 144115188075855872)) =
      Dbl.fin (5117726849284655 / 281474976710656) := by
    apply ofRat_fin
    · rw [roundNearest_eq _ 4 5117726849284655 (by norm_num [abs_of_pos])
        (by norm_num [abs_of_pos]) (by norm_num) (by norm_num [abs_lt])]
      norm_num
    · norm_num
    · norm_num
  have h3 : advanceMs (Dbl.fin (5117726849284655 / 281474976710656)) = some 54 := by
    apply advanceMs_of_rounded _ (7740561859543039 / 140737488355328) 54 (by norm_num)
    · rw [roundNearest_eq _ 5 7740561859543039 (by norm_num [abs_of_pos])
        (by norm_num [abs_of_pos]) (by norm_num) (by norm_num [abs_lt])]
      norm_num
    · norm_num
    · norm_num
    · norm_num
  rw [h1, resolveTargetFPS_of_positive _ (by norm_num), h2, Option.some_bind]
  exact h3

/-- With `FRAME_INTERVAL=11.625` the deadline advances by 11624 ms. -/
theorem advance_at_interval_11625 :
    (resolveTargetFPS EnvNumber.unset (EnvNumber.parsed (Dbl.fin (93 / 8)))).bind
      advanceMs = some 11624 := by
  have h2 : Dbl.ofRat (1 / (93 / 8)) = Dbl.fin (3099251356470019 / 36028797018963968) := by
    apply ofRat_fin
    · rw [roundNearest_eq _ (-4) 6198502712940038 (by norm_num [abs_of_pos])
        (by norm_num [abs_of_pos]) (by norm_num) (by norm_num [abs_lt])]
      norm_num
    · norm_num
    · norm_num
  have h3 : advanceMs (Dbl.fin (3099251356470019 / 36028797018963968)) = some 11624 := by
    apply advanceMs_of_rounded _ (6390911336447999 / 549755813888) 11624 (by norm_num)
    · rw [roundNearest_eq _ 13 6390911336447999 (by norm_num [abs_of_pos])
        (by norm_num [abs_of_pos]) (by norm_num) (by norm_num [abs_lt])]
      norm_num
    · norm_num
    · norm_num
    · norm_num
  rw [resolveTargetFPS_of_positive (93 / 8) (by norm_num), h2, Option.some_bind]
  exact h3

/-! ## Histories -/

theorem persistAttempts_append (a b : List Effect) :
    persistAttempts (a ++ b) = persistAttempts a + persistAttempts b := by
  induction a with
  | nil => simp [persistAttempts]
  | cons e a ih => cases e <;> simp [persistAttempts, ih]; omega

theorem successfulWrites_append (a b : List Effect) :
    successfulWrites (a ++ b) = successfulWrites a + successfulWrites b := by
  induction a with
  | nil => simp [successfulWrites]
  | cons e a ih =>
    cases e with
    | imwrite now f ok => cases ok <;> simp [successfulWrites, ih]; omega
    | _ => simp [successfulWrites, ih]

theorem emitTimes_append (a b : List Effect) :
    emitTimes (a ++ b) = emitTimes a ++ emitTimes b := by
  induction a with
  | nil => simp [emitTimes]
  | cons e a ih => cases e <;> simp [emitTimes, ih]

theorem openAttempts_append (a b : List Effect) :
    openAttempts (a ++ b) = openAttempts a + openAttempts b := by
  induction a with
  | nil => simp [openAttempts]
  | cons e a ih => cases e <;> simp [openAttempts, ih]; omega

/-! ## One iteration -/

theorem iteration_of_failed_read (outputDir : String) (targetFPS : Dbl) (st : LoopState)
    (i : IterInput) (h : i.ret = false ∨ i.frameEmpty = true) :
    iteration outputDir targetFPS st i = some (reconnectStep st i) := by
  unfold iteration
  rcases h with h | h <;> simp [h]

theorem reconnectStep_eq (st : LoopState) (i : IterInput) :
    reconnectStep st i =
      { st with log := st.log ++ [Effect.read false, Effect.release, Effect.sleep 1,
          Effect.openStream i.reopenOk,
          if i.reopenOk then Effect.setBufferSize 1 else Effect.sleep 2] } := by
  unfold reconnectStep
  cases i.reopenOk <;> simp

theorem iteration_of_frame (outputDir : String) (targetFPS : Dbl) (st : LoopState)
    (i : IterInput) (hret : i.ret = true) (hne : i.frameEmpty = false) :
    iteration outputDir targetFPS st i =
      (emitStep outputDir targetFPS { st with log := st.log ++ [Effect.read true] } i).map
        (fun e => heartbeatStep e i) := by
  unfold iteration
  simp only [hret, hne]
  cases emitStep outputDir targetFPS { st with log := st.log ++ [Effect.read true] } i <;> rfl

theorem emitStep_due (outputDir : String) (targetFPS : Dbl) (k : Int) (st : LoopState)
    (i : IterInput) (hk : advanceMs targetFPS = some k) (h : st.nextFrameTime ≤ i.now) :
    emitStep outputDir targetFPS st i =
      some { savedFrames := if i.writeOk then wrapInt32 (st.savedFrames + 1) else st.savedFrames,
             framesThisSecond :=
               if i.writeOk then wrapInt32 (st.framesThisSecond + 1)
               else st.framesThisSecond,
             startTime := st.startTime,
             nextFrameTime := i.now + msToNs k,
             log := st.log ++ [Effect.imwrite i.now
               (frameFilename outputDir (getCurrentTimestamp i.wallTm i.wallMs)) i.writeOk] } := by
  unfold emitStep
  simp only [ge_iff_le, h, if_true, hk]
  cases i.writeOk <;> simp

theorem emitStep_early (outputDir : String) (targetFPS : Dbl) (st : LoopState)
    (i : IterInput) (h : i.now < st.nextFrameTime) :
    emitStep outputDir targetFPS st i = some st := by
  unfold emitStep
  simp [not_le.mpr h]

theorem heartbeatStep_savedFrames (st : LoopState) (i : IterInput) :
    (heartbeatStep st i).savedFrames = st.savedFrames := by
  unfold heartbeatStep; split <;> rfl

theorem heartbeatStep_nextFrameTime (st : LoopState) (i : IterInput) :
    (heartbeatStep st i).nextFrameTime = st.nextFrameTime := by
  unfold heartbeatStep; split <;> rfl

theorem heartbeatStep_log (st : LoopState) (i : IterInput) :
    ∃ extra, (heartbeatStep st i).log = st.log ++ extra ∧ persistAttempts extra = 0 ∧
      successfulWrites extra = 0 ∧ emitTimes extra = [] ∧ openAttempts extra = 0 := by
  unfold heartbeatStep
  split
  · exact ⟨[Effect.heartbeat st.framesThisSecond], rfl, rfl, rfl, rfl, rfl⟩
  · exact ⟨[], by simp, rfl, rfl, rfl, rfl⟩

theorem emitStep_due_undefined (outputDir : String) (targetFPS : Dbl) (st : LoopState)
    (i : IterInput) (hk : advanceMs targetFPS = none) (h : st.nextFrameTime ≤ i.now) :
    emitStep outputDir targetFPS st i = none := by
  unfold emitStep
  simp only [ge_iff_le, h, if_true, hk]

theorem iteration_summary (outputDir : String) (targetFPS : Dbl) (st t : LoopState)
    (i : IterInput) (ht : iteration outputDir targetFPS st i = some t) :
    StepSummary targetFPS st t i := by
  by_cases hfr : i.ret = true ∧ i.frameEmpty = false
  · obtain ⟨hret, hne⟩ := hfr
    rw [iteration_of_frame outputDir targetFPS st i hret hne] at ht
    by_cases hdue : st.nextFrameTime ≤ i.now
    · have hD : Due st i := ⟨⟨hret, hne⟩, hdue⟩
      cases hk : advanceMs targetFPS with
      | none =>
        rw [emitStep_due_undefined outputDir targetFPS
          { st with log := st.log ++ [Effect.read true] } i hk hdue] at ht
        cases ht
      | some k =>
        rw [emitStep_due outputDir targetFPS k
          { st with log := st.log ++ [Effect.read true] } i hk hdue] at ht
        simp only [Option.map_some', Option.some.injEq] at ht
        subst ht
        obtain ⟨extra, hlog, h1, h2, h3, _⟩ := heartbeatStep_log
          { savedFrames := if i.writeOk then wrapInt32 (st.savedFrames + 1) else st.savedFrames,
            framesThisSecond :=
              if i.writeOk then wrapInt32 (st.framesThisSecond + 1)
              else st.framesThisSecond,
            startTime := st.startTime,
            nextFrameTime := i.now + msToNs k,
            log := (st.log ++ [Effect.read true]) ++ [Effect.imwrite i.now
              (frameFilename outputDir (getCurrentTimestamp i.wallTm i.wallMs)) i.writeOk] } i
        constructor
        · rw [heartbeatStep_savedFrames]; cases hw : i.writeOk <;> simp [hD]
        · intro k2 hk2
          rw [hk] at hk2
          injection hk2 with hk2
          subst hk2
          rw [heartbeatStep_nextFrameTime]; simp [hD]
        · rw [hlog]; simp [persistAttempts_append, persistAttempts, h1, hD]
        · rw [hlog]
          cases hw : i.writeOk <;>
            simp [successfulWrites_append, successfulWrites, h2, hD]
        · rw [hlog]; simp [emitTimes_append, emitTimes, h3, hD]
    · have hlt : i.now < st.nextFrameTime := not_le.mp hdue
      have hD : ¬ Due st i := fun h => hdue h.2
      rw [emitStep_early outputDir targetFPS
        { st with log := st.log ++ [Effect.read true] } i hlt] at ht
      simp only [Option.map_some', Option.some.injEq] at ht
      subst ht
      obtain ⟨extra, hlog, h1, h2, h3, _⟩ := heartbeatStep_log
        { st with log := st.log ++ [Effect.read true] } i
      constructor
      · rw [heartbeatStep_savedFrames]; simp [hD]
      · intro k2 _
        rw [heartbeatStep_nextFrameTime]; simp [hD]
      · rw [hlog]; simp [persistAttempts_append, persistAttempts, h1, hD]
      · rw [hlog]; simp [successfulWrites_append, successfulWrites, h2, hD]
      · rw [hlog]; simp [emitTimes_append, emitTimes, h3, hD]
  · have hfail : i.ret = false ∨ i.frameEmpty = true := by
      by_cases h1 : i.ret = true
      · right
        by_cases h2 : i.frameEmpty = true
        · exact h2
        · exact absurd ⟨h1, by simpa using h2⟩ hfr
      · left; simpa using h1
    have hD : ¬ Due st i := fun h => hfr h.1
    rw [iteration_of_failed_read outputDir targetFPS st i hfail, reconnectStep_eq] at ht
    simp only [Option.some.injEq] at ht
    subst ht
    constructor
    · simp [hD]
    · intro k2 _; simp [hD]
    · cases i.reopenOk <;> simp [persistAttempts_append, persistAttempts, hD]
    · cases i.reopenOk <;> simp [successfulWrites_append, successfulWrites, hD]
    · cases i.reopenOk <;> simp [emitTimes_append, emitTimes, hD]

theorem iteration_defined (outputDir : String) (targetFPS : Dbl) (k : Int)
    (hk : advanceMs targetFPS = some k) (st : LoopState) (i : IterInput) :
    ∃ t, iteration outputDir targetFPS st i = some t := by
  by_cases hfr : i.ret = true ∧ i.frameEmpty = false
  · obtain ⟨hret, hne⟩ := hfr
    rw [iteration_of_frame outputDir targetFPS st i hret hne]
    by_cases hdue : st.nextFrameTime ≤ i.now
    · rw [emitStep_due outputDir targetFPS k
        { st with log := st.log ++ [Effect.read true] } i hk hdue]
      exact ⟨_, rfl⟩
    · rw [emitStep_early outputDir targetFPS
        { st with log := st.log ++ [Effect.read true] } i (not_le.mp hdue)]
      exact ⟨_, rfl⟩
  · have hfail : i.ret = false ∨ i.frameEmpty = true := by
      by_cases h1 : i.ret = true
      · right
        by_cases h2 : i.frameEmpty = true
        · exact h2
        · exact absurd ⟨h1, by simpa using h2⟩ hfr
      · left; simpa using h1
    exact ⟨_, iteration_of_failed_read outputDir targetFPS st i hfail⟩

/-! ## Runs of the capture loop -/

theorem captureLoop_inLoop (outputDir : String) (targetFPS : Dbl)
    (xs : List (Bool × IterInput)) :
    ∀ st u, captureLoop outputDir targetFPS st xs = ProcessResult.inLoop u →
      Reaches outputDir targetFPS st u ∧ ∀ x ∈ xs, x.1 = true := by
  induction xs with
  | nil =>
    intro st u h
    simp only [captureLoop, ProcessResult.inLoop.injEq] at h
    subst h
    exact ⟨Reaches.here _, by simp⟩
  | cons x xs ih =>
    intro st u h
    obtain ⟨flag, i⟩ := x
    cases flag with
    | false => simp [captureLoop] at h
    | true =>
      simp only [captureLoop, if_true] at h
      cases hit : iteration outputDir targetFPS st i with
      | none => simp [hit] at h
      | some t =>
        simp only [hit] at h
        obtain ⟨hr, hall⟩ := ih t u h
        refine ⟨Reaches.step i hit hr, ?_⟩
        intro y hy
        rcases List.mem_cons.mp hy with rfl | hy
        · rfl
        · exact hall y hy

theorem captureLoop_exited (outputDir : String) (targetFPS : Dbl)
    (xs : List (Bool × IterInput)) :
    ∀ st code log, captureLoop outputDir targetFPS st xs = ProcessResult.exited code log →
      code = 0 ∧ (∃ x ∈ xs, x.1 = false) ∧
      ∃ u, Reaches outputDir targetFPS st u ∧
        log = u.log ++ [Effect.release, Effect.reportTotal u.savedFrames] := by
  induction xs with
  | nil => intro st code log h; simp [captureLoop] at h
  | cons x xs ih =>
    intro st code log h
    obtain ⟨flag, i⟩ := x
    cases flag with
    | false =>
      simp only [captureLoop, Bool.false_eq_true, if_false, ProcessResult.exited.injEq] at h
      exact ⟨h.1.symm, ⟨(false, i), by simp, rfl⟩, st, Reaches.here _, h.2.symm⟩
    | true =>
      simp only [captureLoop, if_true] at h
      cases hit : iteration outputDir targetFPS st i with
      | none => simp [hit] at h
      | some t =>
        simp only [hit] at h
        obtain ⟨hc, ⟨y, hy, hyf⟩, u, hr, hlog⟩ := ih t code log h
        exact ⟨hc, ⟨y, List.mem_cons_of_mem _ hy, hyf⟩, u, Reaches.step i hit hr, hlog⟩

theorem captureLoop_defined (outputDir : String) (targetFPS : Dbl) (k : Int)
    (hk : advanceMs targetFPS = some k) (xs : List (Bool × IterInput)) :
    ∀ st, captureLoop outputDir targetFPS st xs ≠ ProcessResult.undefined := by
  induction xs with
  | nil => intro st; simp [captureLoop]
  | cons x xs ih =>
    intro st
    obtain ⟨flag, i⟩ := x
    cases flag with
    | false => simp [captureLoop]
    | true =>
      obtain ⟨t, ht⟩ := iteration_defined outputDir targetFPS k hk st i
      simp only [captureLoop, if_true, ht]
      exact ih t

theorem captureLoop_not_aborted (outputDir : String) (targetFPS : Dbl)
    (xs : List (Bool × IterInput)) :
    ∀ st, captureLoop outputDir targetFPS st xs ≠ ProcessResult.aborted := by
  induction xs with
  | nil => intro st; simp [captureLoop]
  | cons x xs ih =>
    intro st
    obtain ⟨flag, i⟩ := x
    cases flag with
    | false => simp [captureLoop]
    | true =>
      simp only [captureLoop, if_true]
      cases hit : iteration outputDir targetFPS st i with
      | none => simp
      | some t => exact ih t

theorem captureLoop_all_running (outputDir : String) (targetFPS : Dbl) (k : Int)
    (hk : advanceMs targetFPS = some k) (st : LoopState) (xs : List (Bool × IterInput))
    (hall : ∀ x ∈ xs, x.1 = true) :
    ∃ u, captureLoop outputDir targetFPS st xs = ProcessResult.inLoop u := by
  cases h : captureLoop outputDir targetFPS st xs with
  | inLoop u => exact ⟨u, rfl⟩
  | undefined => exact absurd h (captureLoop_defined outputDir targetFPS k hk xs st)
  | aborted => exact absurd h (captureLoop_not_aborted outputDir targetFPS xs st)
  | exited code log =>
    obtain ⟨_, ⟨y, hy, hyf⟩, _⟩ := captureLoop_exited outputDir targetFPS xs st code log h
    rw [hall y hy] at hyf
    cases hyf

/-- An invariant of the loop body holds in every state reached. -/
theorem Reaches.invariant {outputDir : String} {targetFPS : Dbl} (P : LoopState → Prop)
    (hstep : ∀ st t i, P st → iteration outputDir targetFPS st i = some t → P t)
    {st u : LoopState} (hr : Reaches outputDir targetFPS st u) (h0 : P st) : P u := by
  induction hr with
  | here _ => exact h0
  | step i hit _ ih => exact ih (hstep _ _ i h0 hit)

theorem msToNs_nonneg (k : Int) (h : 0 ≤ k) : 0 ≤ msToNs k := by
  unfold msToNs; omega

theorem emitTimes_length (log : List Effect) :
    (emitTimes log).length = persistAttempts log := by
  induction log with
  | nil => rfl
  | cons e log ih => cases e <;> simp [emitTimes, persistAttempts, ih]

theorem spaced_step (outputDir : String) (targetFPS : Dbl) (k : Int)
    (hk : advanceMs targetFPS = some k) (h0 : 0 ≤ k) (st t : LoopState) (i : IterInput)
    (hP : Spaced k st) (ht : iteration outputDir targetFPS st i = some t) : Spaced k t := by
  have hs := iteration_summary outputDir targetFPS st t i ht
  have hD := msToNs_nonneg k h0
  obtain ⟨hpw, hnext⟩ := hP
  unfold Spaced
  rw [hs.times, hs.next k hk]
  by_cases hdue : Due st i
  · simp only [hdue, if_true]
    constructor
    · rw [List.pairwise_append]
      refine ⟨hpw, List.pairwise_singleton _ _, ?_⟩
      intro a ha b hb
      rw [List.mem_singleton] at hb
      subst hb
      exact le_trans (hnext a ha) hdue.2
    · intro a ha
      rcases List.mem_append.mp ha with ha | ha
      · have := hnext a ha
        have := hdue.2
        omega
      · rw [List.mem_singleton] at ha
        subst ha
        exact le_refl _
  · simp only [hdue, if_false, List.append_nil]
    exact ⟨hpw, hnext⟩

/-! ## The whole program -/

theorem main_of_unparsable (w : MainInput)
    (hcfg : resolveTargetFPS w.envFps w.envInterval = none) :
    main w = ProcessResult.aborted := by
  unfold main; simp [hcfg]

theorem main_of_dir_failure (w : MainInput) (f : Dbl)
    (hcfg : resolveTargetFPS w.envFps w.envInterval = some f) (h : w.dirOk = false) :
    main w = ProcessResult.exited 1 [Effect.createDirectory false] := by
  unfold main; simp [hcfg, h]

theorem main_of_connect_failure (w : MainInput) (f : Dbl)
    (hcfg : resolveTargetFPS w.envFps w.envInterval = some f) (hd : w.dirOk = true)
    (h : (connectResult w).opened = false) :
    main w = ProcessResult.exited 1 (connectResult w).log := by
  unfold main
  simp [hcfg, hd, h]

theorem main_of_connected (w : MainInput) (f : Dbl)
    (hcfg : resolveTargetFPS w.envFps w.envInterval = some f) (hd : w.dirOk = true)
    (h : (connectResult w).opened = true) :
    main w = captureLoop (w.envDir.getD "/app/frames") f
      (initialLoopState w.startTime w.firstDeadline
        ((connectResult w).log ++ [Effect.setBufferSize 1]))
      w.iterations := by
  unfold main
  simp [hcfg, hd, h]

/-! ## The connection loop -/

theorem connectLoop_all_fail (running opens : Nat → Bool) (hrun : ∀ j, running j = true) :
    ∀ (b : Nat) (c : ConnectState),
      (∀ j, j < b → opens (c.reconnectAttempts + j) = false) →
      (connectLoop running opens b c).opened = c.opened ∧
      (connectLoop running opens b c).reconnectAttempts = c.reconnectAttempts + b ∧
      openAttempts (connectLoop running opens b c).log = openAttempts c.log + b ∧
      successfulWrites (connectLoop running opens b c).log = successfulWrites c.log ∧
      emitTimes (connectLoop running opens b c).log = emitTimes c.log := by
  intro b
  induction b with
  | zero => intro c _; simp [connectLoop]
  | succ b ih =>
    intro c hall
    have h0 : opens c.reconnectAttempts = false := by simpa using hall 0 (Nat.succ_pos b)
    simp only [connectLoop, hrun, h0, if_true, Bool.false_eq_true, if_false]
    obtain ⟨h1, h2, h3, h4, h5⟩ := ih
      { c with reconnectAttempts := c.reconnectAttempts + 1,
               log := c.log ++ [Effect.openStream false, Effect.sleep 3] }
      (by
        intro j hj
        have := hall (j + 1) (by omega)
        simpa [Nat.add_assoc, Nat.add_comm 1 j] using this)
    refine ⟨h1, ?_, ?_, ?_, ?_⟩
    · rw [h2]; simp only; omega
    · rw [h3]; simp [openAttempts_append, openAttempts]; omega
    · rw [h4]; simp [successfulWrites_append, successfulWrites]
    · rw [h5]; simp [emitTimes_append, emitTimes]

theorem connectLoop_first_success (running opens : Nat → Bool)
    (hrun : ∀ j, running j = true) :
    ∀ (b : Nat) (c : ConnectState) (j : Nat), j < b →
      opens (c.reconnectAttempts + j) = true →
      (∀ l, l < j → opens (c.reconnectAttempts + l) = false) →
      (connectLoop running opens b c).opened = true ∧
      (connectLoop running opens b c).reconnectAttempts = c.reconnectAttempts + j ∧
      openAttempts (connectLoop running opens b c).log = openAttempts c.log + (j + 1) := by
  intro b
  induction b with
  | zero => intro c j hj; omega
  | succ b ih =>
    intro c j hj hopen hbefore
    cases j with
    | zero =>
      have h0 : opens c.reconnectAttempts = true := by simpa using hopen
      simp [connectLoop, hrun, h0, openAttempts_append, openAttempts]
    | succ j =>
      have h0 : opens c.reconnectAttempts = false := by simpa using hbefore 0 (Nat.succ_pos j)
      simp only [connectLoop, hrun, h0, if_true, Bool.false_eq_true, if_false]
      obtain ⟨h1, h2, h3⟩ := ih
        { c with reconnectAttempts := c.reconnectAttempts + 1,
                 log := c.log ++ [Effect.openStream false, Effect.sleep 3] } j (by omega)
        (by simpa [Nat.add_assoc, Nat.add_comm 1 j] using hopen)
        (by
          intro l hl
          have := hbefore (l + 1) (by omega)
          simpa [Nat.add_assoc, Nat.add_comm 1 l] using this)
      refine ⟨h1, ?_, ?_⟩
      · rw [h2]; simp only; omega
      · rw [h3]; simp [openAttempts_append, openAttempts]; omega

/-- The connection loop never calls `imwrite`. -/
theorem connectLoop_no_writes (running opens : Nat → Bool) :
    ∀ (b : Nat) (c : ConnectState),
      successfulWrites (connectLoop running opens b c).log = successfulWrites c.log ∧
      emitTimes (connectLoop running opens b c).log = emitTimes c.log := by
  intro b
  induction b with
  | zero => intro c; simp [connectLoop]
  | succ b ih =>
    intro c
    simp only [connectLoop]
    split
    · split
      · simp [successfulWrites_append, successfulWrites, emitTimes_append, emitTimes]
      · obtain ⟨h1, h2⟩ := ih
          { c with reconnectAttempts := c.reconnectAttempts + 1,
                   log := c.log ++ [Effect.openStream false, Effect.sleep 3] }
        rw [h1, h2]
        simp [successfulWrites_append, successfulWrites, emitTimes_append, emitTimes]
    · exact ⟨rfl, rfl⟩

/-- The first index below `n` at which `p` holds, when there is one. -/
theorem exists_first (p : Nat → Bool) :
    ∀ n : Nat, (∃ j, j < n ∧ p j = true) →
      ∃ j, j < n ∧ p j = true ∧ ∀ l, l < j → p l = false := by
  intro n
  induction n with
  | zero => rintro ⟨j, hj, _⟩; omega
  | succ n ih =>
    rintro ⟨j, hj, hp⟩
    by_cases hex : ∃ j, j < n ∧ p j = true
    · obtain ⟨j1, h1, h2, h3⟩ := ih hex
      exact ⟨j1, by omega, h2, h3⟩
    · have hjn : j = n := by
        by_contra hne
        exact hex ⟨j, by omega, hp⟩
      subst hjn
      refine ⟨j, hj, hp, ?_⟩
      intro l hl
      cases hpl : p l with
      | false => rfl
      | true => exact absurd ⟨l, hl, hpl⟩ hex

theorem captureLoop_failures (outputDir : String) (targetFPS : Dbl)
    (xs : List (Bool × IterInput)) :
    ∀ st : LoopState,
      (∀ x ∈ xs, x.1 = true ∧ (x.2.ret = false ∨ x.2.frameEmpty = true)) →
      ∃ u, captureLoop outputDir targetFPS st xs = ProcessResult.inLoop u ∧
        openAttempts u.log = openAttempts st.log + xs.length ∧
        u.savedFrames = st.savedFrames ∧ u.framesThisSecond = st.framesThisSecond ∧
        u.startTime = st.startTime ∧ u.nextFrameTime = st.nextFrameTime := by
  induction xs with
  | nil => intro st _; exact ⟨st, rfl, by simp, rfl, rfl, rfl, rfl⟩
  | cons x xs ih =>
    intro st hall
    obtain ⟨flag, i⟩ := x
    obtain ⟨hflag, hfail⟩ := hall (flag, i) (List.mem_cons_self _ _)
    simp only at hflag hfail
    subst hflag
    obtain ⟨u, hu, h1, h2, h3, h4, h5⟩ := ih (reconnectStep st i)
      (fun y hy => hall y (List.mem_cons_of_mem _ hy))
    refine ⟨u, ?_, ?_, ?_, ?_, ?_, ?_⟩
    · simp only [captureLoop, if_true,
        iteration_of_failed_read outputDir targetFPS st i hfail]
      exact hu
    · rw [h1, reconnectStep_eq]
      cases i.reopenOk <;> simp [openAttempts_append, openAttempts] <;> omega
    · rw [h2, reconnectStep_eq]
    · rw [h3, reconnectStep_eq]
    · rw [h4, reconnectStep_eq]
    · rw [h5, reconnectStep_eq]

theorem counted_step (outputDir : String) (targetFPS : Dbl) (st t : LoopState) (i : IterInput)
    (hP : Counted st) (ht : iteration outputDir targetFPS st i = some t) : Counted t := by
  have hs := iteration_summary outputDir targetFPS st t i ht
  unfold Counted at hP ⊢
  rw [hs.saved, hs.writes, hP]
  split
  · rw [wrapInt32_succ]; push_cast; rfl
  · simp

theorem counted_initial (w : MainInput) :
    Counted (initialLoopState w.startTime w.firstDeadline
      ((connectResult w).log ++ [Effect.setBufferSize 1])) := by
  unfold Counted initialLoopState
  have := (connectLoop_no_writes w.connectRunning w.connectOpens maxReconnectAttempts
    initialConnectState).1
  simp only [successfulWrites_append]
  unfold connectResult
  rw [this]
  simp [initialConnectState, successfulWrites, wrapInt32]

/-- Every result of `main` is one of four shapes. -/
theorem main_cases (w : MainInput) :
    (resolveTargetFPS w.envFps w.envInterval = none ∧ main w = ProcessResult.aborted) ∨
    (∃ f, resolveTargetFPS w.envFps w.envInterval = some f ∧ w.dirOk = false ∧
      main w = ProcessResult.exited 1 [Effect.createDirectory false]) ∨
    (∃ f, resolveTargetFPS w.envFps w.envInterval = some f ∧ w.dirOk = true ∧
      (connectResult w).opened = false ∧
      main w = ProcessResult.exited 1 (connectResult w).log) ∨
    (∃ f, resolveTargetFPS w.envFps w.envInterval = some f ∧ w.dirOk = true ∧
      (connectResult w).opened = true ∧
      main w = captureLoop (w.envDir.getD "/app/frames") f
        (initialLoopState w.startTime w.firstDeadline
          ((connectResult w).log ++ [Effect.setBufferSize 1]))
        w.iterations) := by
  cases hcfg : resolveTargetFPS w.envFps w.envInterval with
  | none => exact Or.inl ⟨rfl, main_of_unparsable w hcfg⟩
  | some f =>
    cases hd : w.dirOk with
    | false => exact Or.inr (Or.inl ⟨f, rfl, rfl, main_of_dir_failure w f hcfg hd⟩)
    | true =>
      cases ho : (connectResult w).opened with
      | false =>
        exact Or.inr (Or.inr (Or.inl ⟨f, rfl, rfl, rfl, main_of_connect_failure w f hcfg hd ho⟩))
      | true =>
        exact Or.inr (Or.inr (Or.inr ⟨f, rfl, rfl, rfl, main_of_connected w f hcfg hd ho⟩))

theorem main_reaches (w : MainInput) :
    (∀ u, main w = ProcessResult.inLoop u → Counted u) ∧
    (∀ code log, main w = ProcessResult.exited code log → code = 0 →
      ∃ u, Counted u ∧ log = u.log ++ [Effect.release, Effect.reportTotal u.savedFrames]) := by
  have hreach : ∀ f u, Reaches (w.envDir.getD "/app/frames") f
      (initialLoopState w.startTime w.firstDeadline
        ((connectResult w).log ++ [Effect.setBufferSize 1])) u → Counted u := fun f u hr =>
    Reaches.invariant Counted
      (fun st t i hP ht => counted_step _ _ st t i hP ht) hr (counted_initial w)
  rcases main_cases w with ⟨_, hm⟩ | ⟨f, _, _, hm⟩ | ⟨f, _, _, _, hm⟩ | ⟨f, _, _, _, hm⟩
  · rw [hm]
    constructor
    · intro u h; cases h
    · intro code log h; cases h
  · rw [hm]
    constructor
    · intro u h; cases h
    · intro code log h hc
      simp only [ProcessResult.exited.injEq] at h
      omega
  · rw [hm]
    constructor
    · intro u h; cases h
    · intro code log h hc
      simp only [ProcessResult.exited.injEq] at h
      omega
  · rw [hm]
    constructor
    · intro u h
      exact hreach f u (captureLoop_inLoop _ _ _ _ u h).1
    · intro code log h _
      obtain ⟨_, _, u, hr, hlog⟩ := captureLoop_exited _ _ _ _ code log h
      exact ⟨u, hreach f u hr, hlog⟩

/-- Every exit code of `main` is 0 or 1, and it is 0 only when the capture loop was left. -/
theorem main_exit_codes (w : MainInput) (code : Int) (log : List Effect)
    (h : main w = ProcessResult.exited code log) :
    (code = 0 ∧ w.dirOk = true ∧ (connectResult w).opened = true ∧
      ∃ x ∈ w.iterations, x.1 = false) ∨
    (code = 1 ∧ (w.dirOk = false ∨ (connectResult w).opened = false)) := by
  rcases main_cases w with ⟨_, hm⟩ | ⟨f, _, hd, hm⟩ | ⟨f, _, _, ho, hm⟩ | ⟨f, _, hd, ho, hm⟩
  · rw [hm] at h; cases h
  · rw [hm] at h
    simp only [ProcessResult.exited.injEq] at h
    right; exact ⟨h.1.symm, Or.inl hd⟩
  · rw [hm] at h
    simp only [ProcessResult.exited.injEq] at h
    right; exact ⟨h.1.symm, Or.inr ho⟩
  · rw [hm] at h
    obtain ⟨hc, hx, _⟩ := captureLoop_exited _ _ _ _ code log h
    left; exact ⟨hc, hd, ho, hx⟩

theorem countersFit_heartbeat (st : LoopState) (i : IterInput) (h : CountersFit st) :
    CountersFit (heartbeatStep st i) := by
  unfold heartbeatStep
  split
  · exact ⟨h.1, by unfold INT_MIN INT_MAX; simp⟩
  · exact h

theorem countersFit_step (outputDir : String) (targetFPS : Dbl) (st t : LoopState)
    (i : IterInput) (h : CountersFit st) (ht : iteration outputDir targetFPS st i = some t) :
    CountersFit t := by
  by_cases hfr : i.ret = true ∧ i.frameEmpty = false
  · obtain ⟨hret, hne⟩ := hfr
    rw [iteration_of_frame outputDir targetFPS st i hret hne] at ht
    cases he : emitStep outputDir targetFPS { st with log := st.log ++ [Effect.read true] } i with
    | none => rw [he] at ht; cases ht
    | some e =>
      rw [he] at ht
      simp only [Option.map_some', Option.some.injEq] at ht
      subst ht
      apply countersFit_heartbeat
      by_cases hdue : st.nextFrameTime ≤ i.now
      · cases hk : advanceMs targetFPS with
        | none =>
          rw [emitStep_due_undefined outputDir targetFPS
            { st with log := st.log ++ [Effect.read true] } i hk hdue] at he
          cases he
        | some k =>
          rw [emitStep_due outputDir targetFPS k
            { st with log := st.log ++ [Effect.read true] } i hk hdue] at he
          simp only [Option.some.injEq] at he
          subst he
          cases hw : i.writeOk
          · exact h
          · exact ⟨wrapInt32_range _, wrapInt32_range _⟩
      · rw [emitStep_early outputDir targetFPS
          { st with log := st.log ++ [Effect.read true] } i (not_le.mp hdue)] at he
        simp only [Option.some.injEq] at he
        subst he
        exact h
  · have hfail : i.ret = false ∨ i.frameEmpty = true := by
      by_cases h1 : i.ret = true
      · right
        by_cases h2 : i.frameEmpty = true
        · exact h2
        · exact absurd ⟨h1, by simpa using h2⟩ hfr
      · left; simpa using h1
    rw [iteration_of_failed_read outputDir targetFPS st i hfail, reconnectStep_eq] at ht
    simp only [Option.some.injEq] at ht
    subst ht
    exact h

/-- In every state of every run of `main` both counters hold `int` values. -/
theorem counters_fit_int (w : MainInput) (st : LoopState)
    (h : main w = ProcessResult.inLoop st) : CountersFit st := by
  have h0 : ∀ log, CountersFit (initialLoopState w.startTime w.firstDeadline log) := by
    intro log
    unfold CountersFit initialLoopState INT_MIN INT_MAX
    simp
  rcases main_cases w with ⟨_, hm⟩ | ⟨f, _, _, hm⟩ | ⟨f, _, _, _, hm⟩ | ⟨f, _, _, _, hm⟩
  · rw [hm] at h; cases h
  · rw [hm] at h; cases h
  · rw [hm] at h; cases h
  · rw [hm] at h
    exact Reaches.invariant CountersFit
      (fun s t i hP ht => countersFit_step _ _ s t i hP ht)
      (captureLoop_inLoop _ _ _ _ st h).1 (h0 _)

/-! ## A steady source -/

theorem framesPerEmit_pos (k period : Int) : 1 ≤ framesPerEmit k period := by
  unfold framesPerEmit; exact le_max_left _ _

theorem framesPerEmit_covers (k period : Int) (hp : 0 < period) :
    msToNs k ≤ (framesPerEmit k period : Int) * period := by
  unfold framesPerEmit
  have h1 := Int.lt_ediv_add_one_mul_self (msToNs k + period - 1) hp
  have hc : (msToNs k + period - 1) / period ≤
      ((max 1 (Int.toNat ((msToNs k + period - 1) / period)) : Nat) : Int) := by
    have := Int.self_le_toNat ((msToNs k + period - 1) / period)
    have h2 : Int.toNat ((msToNs k + period - 1) / period) ≤
      max 1 (Int.toNat ((msToNs k + period - 1) / period)) := le_max_right _ _
    omega
  have : (msToNs k + period - 1) / period * period ≤
      ((max 1 (Int.toNat ((msToNs k + period - 1) / period)) : Nat) : Int) * period :=
    Int.mul_le_mul_of_nonneg_right hc (le_of_lt hp)
  linarith

theorem framesPerEmit_least (k period : Int) (hp : 0 < period)
    (h2 : 2 ≤ framesPerEmit k period) :
    ((framesPerEmit k period : Int) - 1) * period < msToNs k := by
  unfold framesPerEmit at h2 ⊢
  have hle := Int.ediv_mul_le (msToNs k + period - 1) (ne_of_gt hp)
  have hpos : 2 ≤ Int.toNat ((msToNs k + period - 1) / period) := by
    rcases le_max_iff.mp h2 with h | h
    · omega
    · exact h
  have hmax : max 1 (Int.toNat ((msToNs k + period - 1) / period)) =
      Int.toNat ((msToNs k + period - 1) / period) := max_eq_right (by omega)
  rw [hmax]
  have hcast : ((Int.toNat ((msToNs k + period - 1) / period) : Nat) : Int) =
      (msToNs k + period - 1) / period := Int.toNat_of_nonneg (by omega)
  rw [hcast]
  linarith

theorem firstPulls_succ (src : Nat → IterInput) (n : Nat) :
    firstPulls src (n + 1) = firstPulls src n ++ [(true, src n)] := by
  unfold firstPulls
  rw [List.range_succ, List.map_append]
  rfl

theorem captureLoop_snoc (outputDir : String) (targetFPS : Dbl) (i : IterInput)
    (xs : List (Bool × IterInput)) :
    ∀ st u, captureLoop outputDir targetFPS st xs = ProcessResult.inLoop u →
      captureLoop outputDir targetFPS st (xs ++ [(true, i)]) =
        match iteration outputDir targetFPS u i with
        | none => ProcessResult.undefined
        | some t => ProcessResult.inLoop t := by
  induction xs with
  | nil =>
    intro st u h
    simp only [captureLoop, ProcessResult.inLoop.injEq] at h
    subst h
    simp only [List.nil_append, captureLoop, if_true]
  | cons x xs ih =>
    intro st u h
    obtain ⟨flag, j⟩ := x
    cases flag with
    | false => simp [captureLoop] at h
    | true =>
      simp only [captureLoop, if_true, List.cons_append] at h ⊢
      cases hit : iteration outputDir targetFPS st j with
      | none => simp [hit] at h
      | some t =>
        simp only [hit] at h ⊢
        exact ih t u h

theorem div_succ_of_last (n m : Nat) (hm : 0 < m) (h : n % m + 1 = m) :
    (n + 1) / m = n / m + 1 ∧ (n + 1) / m * m = n + 1 := by
  have hdm := Nat.div_add_mod n m
  have h1 : n + 1 = m * (n / m + 1) := by rw [Nat.mul_add, Nat.mul_one]; omega
  have h2 : (n + 1) / m = n / m + 1 := by
    rw [h1]; exact Nat.mul_div_cancel_left _ hm
  refine ⟨h2, ?_⟩
  rw [h2, Nat.mul_comm]; exact h1.symm

theorem div_succ_of_not_last (n m : Nat) (hm : 0 < m) (h : n % m + 1 < m) :
    (n + 1) / m = n / m := by
  have hdm := Nat.div_add_mod n m
  have h1 : n + 1 = (n % m + 1) + m * (n / m) := by omega
  rw [h1, Nat.add_mul_div_left _ _ hm, Nat.div_eq_of_lt h]
  simp

/-- The state after `n + 1` pulls from a steady source. -/
theorem steady_state (outputDir : String) (f : Dbl) (k : Int) (hk : advanceMs f = some k)
    (period : Int) (hp : 0 < period) (t0 : Int) (st0 : LoopState)
    (hinit : st0.nextFrameTime ≤ t0) (src : Nat → IterInput)
    (hsrc : ∀ j, (src j).ret = true ∧ (src j).frameEmpty = false ∧
      (src j).writeOk = true ∧ (src j).now = t0 + (j : Int) * period) :
    ∀ n : Nat, ∃ u,
      captureLoop outputDir f st0 (firstPulls src (n + 1)) = ProcessResult.inLoop u ∧
      successfulWrites u.log = successfulWrites st0.log + n / framesPerEmit k period + 1 ∧
      u.nextFrameTime =
        t0 + ((n / framesPerEmit k period * framesPerEmit k period : Nat) : Int) * period +
          msToNs k := by
  have hm := framesPerEmit_pos k period
  intro n
  induction n with
  | zero =>
    obtain ⟨hret, hne, hw, hnow⟩ := hsrc 0
    obtain ⟨t, ht⟩ := iteration_defined outputDir f k hk st0 (src 0)
    have hs := iteration_summary outputDir f st0 t (src 0) ht
    have hD : Due st0 (src 0) := ⟨⟨hret, hne⟩, by rw [hnow]; simpa using hinit⟩
    refine ⟨t, ?_, ?_, ?_⟩
    · have := captureLoop_snoc outputDir f (src 0) [] st0 st0 rfl
      rw [ht] at this
      rw [firstPulls_succ]
      exact this
    · rw [hs.writes]; simp [hD, hw]
    · rw [hs.next k hk]; simp [hD, hnow]
  | succ n ih =>
    obtain ⟨u, hu, hsaved, hnext⟩ := ih
    obtain ⟨hret, hne, hw, hnow⟩ := hsrc (n + 1)
    obtain ⟨t, ht⟩ := iteration_defined outputDir f k hk u (src (n + 1))
    have hs := iteration_summary outputDir f u t (src (n + 1)) ht
    have hrun : captureLoop outputDir f st0 (firstPulls src (n + 1 + 1)) =
        ProcessResult.inLoop t := by
      have := captureLoop_snoc outputDir f (src (n + 1)) _ st0 u hu
      rw [ht] at this
      rw [firstPulls_succ src (n + 1)]
      exact this
    refine ⟨t, hrun, ?_, ?_⟩ <;>
    · have hdm := Nat.div_add_mod n (framesPerEmit k period)
      have hmod : n % framesPerEmit k period < framesPerEmit k period := Nat.mod_lt _ hm
      have hcov := framesPerEmit_covers k period hp
      have hqm : ((n / framesPerEmit k period * framesPerEmit k period : Nat) : Int) =
          (n : Int) - ((n % framesPerEmit k period : Nat) : Int) := by
        have : n / framesPerEmit k period * framesPerEmit k period =
            n - n % framesPerEmit k period := by
          rw [Nat.mul_comm]; omega
        rw [this, Nat.cast_sub (Nat.mod_le _ _)]
      by_cases hlast : n % framesPerEmit k period + 1 = framesPerEmit k period
      · obtain ⟨hq, hqm2⟩ := div_succ_of_last n _ hm hlast
        have hD : Due u (src (n + 1)) := by
          refine ⟨⟨hret, hne⟩, ?_⟩
          rw [hnext, hnow, hqm]
          have hr : ((n % framesPerEmit k period : Nat) : Int) =
              (framesPerEmit k period : Int) - 1 := by omega
          rw [hr]
          push_cast
          nlinarith
        first
        | rw [hs.writes, hsaved, hq]; simp [hD, hw]; omega
        | rw [hs.next k hk, hqm2]; simp [hD, hnow]
      · have hlt : n % framesPerEmit k period + 1 < framesPerEmit k period := by omega
        have hq := div_succ_of_not_last n _ hm hlt
        have hleast := framesPerEmit_least k period hp (by omega)
        have hD : ¬ Due u (src (n + 1)) := by
          intro h
          have h2 := h.2
          rw [hnext, hnow, hqm] at h2
          push_cast at h2
          have hr : ((n % framesPerEmit k period : Nat) : Int) + 1 ≤
              (framesPerEmit k period : Int) - 1 := by omega
          nlinarith
        first
        | rw [hs.writes, hsaved, hq]; simp [hD]
        | rw [hs.next k hk, hq, hnext]; simp [hD]

/-- Frames written among the first `n` pulled from a steady source. -/
theorem steady_saved (outputDir : String) (f : Dbl) (k : Int) (hk : advanceMs f = some k)
    (period : Int) (hp : 0 < period) (t0 : Int) (st0 : LoopState)
    (hinit : st0.nextFrameTime ≤ t0) (src : Nat → IterInput)
    (hsrc : ∀ j, (src j).ret = true ∧ (src j).frameEmpty = false ∧
      (src j).writeOk = true ∧ (src j).now = t0 + (j : Int) * period) (n : Nat) :
    ∃ u, captureLoop outputDir f st0 (firstPulls src n) = ProcessResult.inLoop u ∧
      successfulWrites u.log =
        successfulWrites st0.log + (n + framesPerEmit k period - 1) / framesPerEmit k period := by
  have hm := framesPerEmit_pos k period
  cases n with
  | zero =>
    have h0 : (0 + framesPerEmit k period - 1) / framesPerEmit k period = 0 :=
      Nat.div_eq_of_lt (by omega)
    rw [h0]
    exact ⟨st0, by simp [firstPulls, captureLoop], by simp⟩
  | succ n =>
    obtain ⟨u, hu, hsaved, _⟩ := steady_state outputDir f k hk period hp t0 st0 hinit src hsrc n
    refine ⟨u, hu, ?_⟩
    have h1 : n + 1 + framesPerEmit k period - 1 = n + framesPerEmit k period := by omega
    rw [hsaved, h1, Nat.add_div_right _ (by omega)]
    omega

theorem ceil_div_ratio_tendsto (m : Nat) (hm : 1 ≤ m) :
    Filter.Tendsto (fun n : ℕ => (((n + m - 1) / m : Nat) : ℝ) / (n : ℝ))
      Filter.atTop (nhds (1 / (m : ℝ))) := by
  have hmpos : (0 : ℝ) < (m : ℝ) := by exact_mod_cast hm
  have hupper : Filter.Tendsto (fun n : ℕ => 1 / (m : ℝ) + 1 / (n : ℝ)) Filter.atTop
      (nhds (1 / (m : ℝ))) := by
    have hconst : Filter.Tendsto (fun _ : ℕ => 1 / (m : ℝ)) Filter.atTop
        (nhds (1 / (m : ℝ))) := tendsto_const_nhds
    have := hconst.add tendsto_one_div_atTop_nhds_zero_nat
    simpa using this
  refine tendsto_of_tendsto_of_tendsto_of_le_of_le' tendsto_const_nhds hupper ?_ ?_
  · filter_upwards [Filter.eventually_ge_atTop 1] with n hn
    have hnpos : (0 : ℝ) < (n : ℝ) := by exact_mod_cast hn
    rw [div_le_div_iff₀ hmpos hnpos, one_mul]
    have hnat : n ≤ (n + m - 1) / m * m := by
      have h1 := Nat.div_add_mod (n + m - 1) m
      have h2 := Nat.mod_lt (n + m - 1) hm
      rw [Nat.mul_comm] at h1
      omega
    have : (n : ℝ) ≤ (((n + m - 1) / m : Nat) : ℝ) * (m : ℝ) := by exact_mod_cast hnat
    simpa using this
  · filter_upwards [Filter.eventually_ge_atTop 1] with n hn
    have hnpos : (0 : ℝ) < (n : ℝ) := by exact_mod_cast hn
    have hnat : (n + m - 1) / m * m ≤ n + m := by
      have h1 := Nat.div_mul_le_self (n + m - 1) m
      omega
    have hreal : (((n + m - 1) / m : Nat) : ℝ) * (m : ℝ) ≤ (n : ℝ) + (m : ℝ) := by
      exact_mod_cast hnat
    have hsum : 1 / (m : ℝ) + 1 / (n : ℝ) = ((n : ℝ) + (m : ℝ)) / ((m : ℝ) * (n : ℝ)) := by
      field_simp
    rw [hsum, div_le_div_iff₀ hnpos (mul_pos hmpos hnpos)]
    nlinarith

/-- Limit of the written fraction for a steady source. -/
theorem steady_ratio_tendsto (outputDir : String) (f : Dbl) (k : Int)
    (hk : advanceMs f = some k) (period : Int) (hp : 0 < period) (t0 : Int)
    (st0 : LoopState) (hinit : st0.nextFrameTime ≤ t0) (src : Nat → IterInput)
    (hsrc : ∀ j, (src j).ret = true ∧ (src j).frameEmpty = false ∧
      (src j).writeOk = true ∧ (src j).now = t0 + (j : Int) * period) :
    Filter.Tendsto
      (fun n : ℕ =>
        ((successfulWrites (captureLoop outputDir f st0 (firstPulls src n)).log : ℝ) -
          (successfulWrites st0.log : ℝ)) / (n : ℝ))
      Filter.atTop (nhds (1 / (framesPerEmit k period : ℝ))) := by
  have h := ceil_div_ratio_tendsto (framesPerEmit k period) (framesPerEmit_pos k period)
  refine h.congr ?_
  intro n
  obtain ⟨u, hu, hw⟩ := steady_saved outputDir f k hk period hp t0 st0 hinit src hsrc n
  rw [hu]
  simp only [ProcessResult.log]
  rw [hw]
  push_cast
  ring

theorem framesPerEmit_exact (k period : Int) (hp : 0 < period) (hk : 0 < k)
    (hdvd : period ∣ msToNs k) :
    ((framesPerEmit k period : Nat) : Int) * period = msToNs k := by
  obtain ⟨c, hc⟩ := hdvd
  have hcpos : 0 < c := by
    have hD : 0 < msToNs k := by unfold msToNs; omega
    rw [hc] at hD
    by_contra hneg
    have hc0 : c ≤ 0 := not_lt.mp hneg
    nlinarith
  have hdiv : (msToNs k + period - 1) / period = c := by
    rw [hc]
    have : period * c + period - 1 = (period - 1) + period * c := by ring
    rw [this, Int.add_mul_ediv_left _ _ (ne_of_gt hp),
      Int.ediv_eq_zero_of_lt (by omega) (by omega)]
    simp
  unfold framesPerEmit
  rw [hdiv, hc]
  have hmax : max 1 c.toNat = c.toNat := max_eq_right (by omega)
  rw [hmax, Int.toNat_of_nonneg (le_of_lt hcpos)]
  ring

/-! ## Lexicographic order on lists -/

theorem lex_cons_iff {α : Type} [LinearOrder α] (a b : α) (x y : List α) :
    List.Lex (fun u v : α => u < v) (a :: x) (b :: y) ↔
      a < b ∨ (a = b ∧ List.Lex (fun u v : α => u < v) x y) := by
  constructor
  · intro h
    cases h with
    | rel hab => exact Or.inl hab
    | cons hxy => exact Or.inr ⟨rfl, hxy⟩
  · rintro (hab | ⟨rfl, hxy⟩)
    · exact List.Lex.rel hab
    · exact List.Lex.cons hxy

theorem lex_irrefl {α : Type} [LinearOrder α] (x : List α) :
    ¬ List.Lex (fun u v : α => u < v) x x := by
  induction x with
  | nil => intro h; cases h
  | cons a x ih =>
    rw [lex_cons_iff]
    rintro (h | ⟨_, h⟩)
    · exact lt_irrefl _ h
    · exact ih h

/-- Comparing two texts that start with blocks of equal length. -/
theorem lex_append_iff {α : Type} [LinearOrder α] :
    ∀ (a b x y : List α), a.length = b.length →
      (List.Lex (fun u v : α => u < v) (a ++ x) (b ++ y) ↔
        List.Lex (fun u v : α => u < v) a b ∨
          (a = b ∧ List.Lex (fun u v : α => u < v) x y)) := by
  intro a
  induction a with
  | nil =>
    intro b x y hlen
    cases b with
    | nil =>
      have : ¬ List.Lex (fun u v : α => u < v) ([] : List α) [] := lex_irrefl _
      simp [this]
    | cons c b => simp at hlen
  | cons c a ih =>
    intro b x y hlen
    cases b with
    | nil => simp at hlen
    | cons d b =>
      have hlen2 : a.length = b.length := by simpa using hlen
      simp only [List.cons_append, lex_cons_iff, ih b x y hlen2, List.cons.injEq]
      constructor
      · rintro (h | ⟨rfl, h | ⟨rfl, h⟩⟩)
        · exact Or.inl (Or.inl h)
        · exact Or.inl (Or.inr ⟨rfl, h⟩)
        · exact Or.inr ⟨⟨rfl, rfl⟩, h⟩
      · rintro ((h | ⟨rfl, h⟩) | ⟨⟨rfl, rfl⟩, h⟩)
        · exact Or.inl h
        · exact Or.inr ⟨rfl, Or.inl h⟩
        · exact Or.inr ⟨rfl, Or.inr ⟨rfl, h⟩⟩

theorem list_append_eq_append {α : Type} :
    ∀ (a b x y : List α), a.length = b.length → (a ++ x = b ++ y ↔ a = b ∧ x = y) := by
  intro a b x y hlen
  constructor
  · intro h; exact List.append_inj h hlen
  · rintro ⟨rfl, rfl⟩; rfl

/-! ## Decimal digits -/

theorem digitChar_lt : ∀ a, a < 10 → ∀ b, b < 10 →
    (Nat.digitChar a < Nat.digitChar b ↔ a < b) := by decide

theorem digitChar_eq : ∀ a, a < 10 → ∀ b, b < 10 →
    (Nat.digitChar a = Nat.digitChar b ↔ a = b) := by decide

theorem toDigitsCore_small (fuel n : Nat) (ds : List Char) (h : n < 10) :
    Nat.toDigitsCore 10 (fuel + 1) n ds = Nat.digitChar n :: ds := by
  have h1 : n / 10 = 0 := Nat.div_eq_of_lt h
  have h2 : n % 10 = n := Nat.mod_eq_of_lt h
  simp [Nat.toDigitsCore, h1, h2]

theorem toDigitsCore_step (fuel n : Nat) (ds : List Char) (h : 10 ≤ n) :
    Nat.toDigitsCore 10 (fuel + 1) n ds =
      Nat.toDigitsCore 10 fuel (n / 10) (Nat.digitChar (n % 10) :: ds) := by
  have h1 : n / 10 ≠ 0 := by omega
  simp [Nat.toDigitsCore, h1]

theorem decimal_one_digit (n : Nat) (h : n < 10) : decimal n = [Nat.digitChar n] := by
  unfold decimal Nat.toDigits
  exact toDigitsCore_small n n [] h

theorem decimal_two_digits (n : Nat) (h1 : 10 ≤ n) (h2 : n < 100) :
    decimal n = [Nat.digitChar (n / 10), Nat.digitChar (n % 10)] := by
  unfold decimal Nat.toDigits
  obtain ⟨m, rfl⟩ : ∃ m, n = m + 1 := ⟨n - 1, by omega⟩
  rw [toDigitsCore_step _ _ _ h1, toDigitsCore_small m _ _ (by omega)]

theorem decimal_three_digits (n : Nat) (h1 : 100 ≤ n) (h2 : n < 1000) :
    decimal n = [Nat.digitChar (n / 100), Nat.digitChar (n / 10 % 10),
      Nat.digitChar (n % 10)] := by
  unfold decimal Nat.toDigits
  obtain ⟨m, rfl⟩ : ∃ m, n = m + 1 + 1 := ⟨n - 2, by omega⟩
  rw [toDigitsCore_step _ _ _ (by omega), toDigitsCore_step _ _ _ (by omega),
    toDigitsCore_small m _ _ (by omega)]
  have : (m + 1 + 1) / 10 / 10 = (m + 1 + 1) / 100 := by omega
  rw [this]

theorem decimal_four_digits (n : Nat) (h1 : 1000 ≤ n) (h2 : n < 10000) :
    decimal n = [Nat.digitChar (n / 1000), Nat.digitChar (n / 100 % 10),
      Nat.digitChar (n / 10 % 10), Nat.digitChar (n % 10)] := by
  unfold decimal Nat.toDigits
  obtain ⟨m, rfl⟩ : ∃ m, n = m + 1 + 1 + 1 := ⟨n - 3, by omega⟩
  rw [toDigitsCore_step _ _ _ (by omega), toDigitsCore_step _ _ _ (by omega),
    toDigitsCore_step _ _ _ (by omega), toDigitsCore_small m _ _ (by omega)]
  have e1 : (m + 1 + 1 + 1) / 10 / 10 / 10 = (m + 1 + 1 + 1) / 1000 := by omega
  have e2 : (m + 1 + 1 + 1) / 10 / 10 % 10 = (m + 1 + 1 + 1) / 100 % 10 := by omega
  rw [e1, e2]

theorem twoDigits_eq (n : Nat) (h : n < 100) :
    twoDigits n = [Nat.digitChar (n / 10), Nat.digitChar (n % 10)] := by
  unfold twoDigits setw
  by_cases h10 : n < 10
  · rw [decimal_one_digit n h10]
    have h1 : n / 10 = 0 := Nat.div_eq_of_lt h10
    have h2 : n % 10 = n := Nat.mod_eq_of_lt h10
    rw [h1, h2]
    rfl
  · rw [decimal_two_digits n (by omega) h]
    rfl

theorem threeDigits_eq (n : Nat) (h : n < 1000) :
    setw 3 '0' (decimal n) = [Nat.digitChar (n / 100), Nat.digitChar (n / 10 % 10),
      Nat.digitChar (n % 10)] := by
  unfold setw
  by_cases h10 : n < 10
  · rw [decimal_one_digit n h10]
    have h1 : n / 100 = 0 := by omega
    have h2 : n / 10 % 10 = 0 := by omega
    have h3 : n % 10 = n := Nat.mod_eq_of_lt h10
    rw [h1, h2, h3]
    rfl
  · by_cases h100 : n < 100
    · rw [decimal_two_digits n (by omega) h100]
      have h1 : n / 100 = 0 := by omega
      have h2 : n / 10 % 10 = n / 10 := by omega
      rw [h1, h2]
      rfl
    · rw [decimal_three_digits n (by omega) h]
      rfl

/-- The nineteen characters of a timestamp. -/
theorem getCurrentTimestamp_data (t : Tm) (epochMs : Nat) (hv : t.valid)
    (hy : 1000 ≤ t.year ∧ t.year ≤ 9999) :
    (getCurrentTimestamp t epochMs).data =
      [Nat.digitChar (t.year / 1000), Nat.digitChar (t.year / 100 % 10),
       Nat.digitChar (t.year / 10 % 10), Nat.digitChar (t.year % 10),
       Nat.digitChar (t.month / 10), Nat.digitChar (t.month % 10),
       Nat.digitChar (t.day / 10), Nat.digitChar (t.day % 10), '_',
       Nat.digitChar (t.hour / 10), Nat.digitChar (t.hour % 10),
       Nat.digitChar (t.minute / 10), Nat.digitChar (t.minute % 10),
       Nat.digitChar (t.second / 10), Nat.digitChar (t.second % 10), '_',
       Nat.digitChar (epochMs % 1000 / 100), Nat.digitChar (epochMs % 1000 / 10 % 10),
       Nat.digitChar (epochMs % 1000 % 10)] := by
  obtain ⟨_, hmo, _, hd, hh, hmi, hs⟩ := hv
  unfold getCurrentTimestamp putTime
  rw [decimal_four_digits t.year hy.1 (by omega), twoDigits_eq t.month (by omega),
    twoDigits_eq t.day (by omega), twoDigits_eq t.hour (by omega),
    twoDigits_eq t.minute (by omega), twoDigits_eq t.second (by omega),
    threeDigits_eq (epochMs % 1000) (Nat.mod_lt _ (by decide))]
  rfl

theorem two_digit_blocks (n m : Nat) (hn : n < 100) (hm : m < 100) (x y : List Char) :
    (List.Lex (fun a b : Char => a < b)
        (Nat.digitChar (n / 10) :: Nat.digitChar (n % 10) :: x)
        (Nat.digitChar (m / 10) :: Nat.digitChar (m % 10) :: y) ↔
      n < m ∨ (n = m ∧ List.Lex (fun a b : Char => a < b) x y)) ∧
    (Nat.digitChar (n / 10) :: Nat.digitChar (n % 10) :: x =
        Nat.digitChar (m / 10) :: Nat.digitChar (m % 10) :: y ↔ n = m ∧ x = y) := by
  have l1 := digitChar_lt (n / 10) (by omega) (m / 10) (by omega)
  have l2 := digitChar_lt (n % 10) (by omega) (m % 10) (by omega)
  have e1 := digitChar_eq (n / 10) (by omega) (m / 10) (by omega)
  have e2 := digitChar_eq (n % 10) (by omega) (m % 10) (by omega)
  constructor
  · simp only [lex_cons_iff, l1, l2, e1, e2]
    constructor
    · rintro (h | ⟨h1, h | ⟨h2, h⟩⟩)
      · left; omega
      · left; omega
      · right; exact ⟨by omega, h⟩
    · rintro (h | ⟨rfl, h⟩)
      · by_cases hq : n / 10 < m / 10
        · exact Or.inl hq
        · exact Or.inr ⟨by omega, Or.inl (by omega)⟩
      · exact Or.inr ⟨rfl, Or.inr ⟨rfl, h⟩⟩
  · simp only [List.cons.injEq, e1, e2]
    constructor
    · rintro ⟨h1, h2, h3⟩; exact ⟨by omega, h3⟩
    · rintro ⟨rfl, rfl⟩; exact ⟨rfl, rfl, rfl⟩

theorem three_digit_blocks (n m : Nat) (hn : n < 1000) (hm : m < 1000) (x y : List Char) :
    (List.Lex (fun a b : Char => a < b)
        (Nat.digitChar (n / 100) :: Nat.digitChar (n / 10 % 10) :: Nat.digitChar (n % 10) :: x)
        (Nat.digitChar (m / 100) :: Nat.digitChar (m / 10 % 10) :: Nat.digitChar (m % 10) :: y)
      ↔ n < m ∨ (n = m ∧ List.Lex (fun a b : Char => a < b) x y)) ∧
    (Nat.digitChar (n / 100) :: Nat.digitChar (n / 10 % 10) :: Nat.digitChar (n % 10) :: x =
        Nat.digitChar (m / 100) :: Nat.digitChar (m / 10 % 10) :: Nat.digitChar (m % 10) :: y
      ↔ n = m ∧ x = y) := by
  have l0 := digitChar_lt (n / 100) (by omega) (m / 100) (by omega)
  have e0 := digitChar_eq (n / 100) (by omega) (m / 100) (by omega)
  have l1 := digitChar_lt (n / 10 % 10) (by omega) (m / 10 % 10) (by omega)
  have l2 := digitChar_lt (n % 10) (by omega) (m % 10) (by omega)
  have e1 := digitChar_eq (n / 10 % 10) (by omega) (m / 10 % 10) (by omega)
  have e2 := digitChar_eq (n % 10) (by omega) (m % 10) (by omega)
  constructor
  · simp only [lex_cons_iff, l0, l1, l2, e0, e1, e2]
    constructor
    · rintro (h | ⟨h0, h | ⟨h1, h | ⟨h2, h⟩⟩⟩)
      · left; omega
      · left; omega
      · left; omega
      · right; exact ⟨by omega, h⟩
    · rintro (h | ⟨rfl, h⟩)
      · by_cases hq : n / 100 < m / 100
        · exact Or.inl hq
        · refine Or.inr ⟨by omega, ?_⟩
          by_cases hq2 : n / 10 % 10 < m / 10 % 10
          · exact Or.inl hq2
          · exact Or.inr ⟨by omega, Or.inl (by omega)⟩
      · exact Or.inr ⟨rfl, Or.inr ⟨rfl, Or.inr ⟨rfl, h⟩⟩⟩
  · simp only [List.cons.injEq, e0, e1, e2]
    constructor
    · rintro ⟨h0, h1, h2, h3⟩; exact ⟨by omega, h3⟩
    · rintro ⟨rfl, rfl⟩; exact ⟨rfl, rfl, rfl, rfl⟩

theorem four_digit_blocks (n m : Nat) (hn : n < 10000) (hm : m < 10000) (x y : List Char) :
    (List.Lex (fun a b : Char => a < b)
        (Nat.digitChar (n / 1000) :: Nat.digitChar (n / 100 % 10) ::
          Nat.digitChar (n / 10 % 10) :: Nat.digitChar (n % 10) :: x)
        (Nat.digitChar (m / 1000) :: Nat.digitChar (m / 100 % 10) ::
          Nat.digitChar (m / 10 % 10) :: Nat.digitChar (m % 10) :: y)
      ↔ n < m ∨ (n = m ∧ List.Lex (fun a b : Char => a < b) x y)) ∧
    (Nat.digitChar (n / 1000) :: Nat.digitChar (n / 100 % 10) ::
          Nat.digitChar (n / 10 % 10) :: Nat.digitChar (n % 10) :: x =
        Nat.digitChar (m / 1000) :: Nat.digitChar (m / 100 % 10) ::
          Nat.digitChar (m / 10 % 10) :: Nat.digitChar (m % 10) :: y
      ↔ n = m ∧ x = y) := by
  have h3a := three_digit_blocks (n % 1000) (m % 1000) (Nat.mod_lt _ (by decide))
    (Nat.mod_lt _ (by decide)) x y
  have r1 : n % 1000 / 100 = n / 100 % 10 := by omega
  have r2 : n % 1000 / 10 % 10 = n / 10 % 10 := by omega
  have r3 : n % 1000 % 10 = n % 10 := by omega
  have s1 : m % 1000 / 100 = m / 100 % 10 := by omega
  have s2 : m % 1000 / 10 % 10 = m / 10 % 10 := by omega
  have s3 : m % 1000 % 10 = m % 10 := by omega
  rw [r1, r2, r3, s1, s2, s3] at h3a
  have l0 := digitChar_lt (n / 1000) (by omega) (m / 1000) (by omega)
  have e0 := digitChar_eq (n / 1000) (by omega) (m / 1000) (by omega)
  constructor
  · rw [lex_cons_iff, h3a.1, l0, e0]
    constructor
    · rintro (h | ⟨h0, h | ⟨h1, h⟩⟩)
      · left; omega
      · left; omega
      · right; exact ⟨by omega, h⟩
    · rintro (h | ⟨rfl, h⟩)
      · by_cases hq : n / 1000 < m / 1000
        · exact Or.inl hq
        · exact Or.inr ⟨by omega, Or.inl (by omega)⟩
      · exact Or.inr ⟨rfl, Or.inr ⟨rfl, h⟩⟩
  · rw [List.cons.injEq, h3a.2, e0]
    constructor
    · rintro ⟨h0, h1, h2⟩; exact ⟨by omega, h2⟩
    · rintro ⟨rfl, rfl⟩; exact ⟨rfl, rfl, rfl⟩

theorem separator_block (x y : List Char) :
    (List.Lex (fun a b : Char => a < b) ('_' :: x) ('_' :: y) ↔
      List.Lex (fun a b : Char => a < b) x y) ∧
    ('_' :: x = '_' :: y ↔ x = y) := by
  constructor
  · rw [lex_cons_iff]
    constructor
    · rintro (h | ⟨_, h⟩)
      · exact absurd h (lt_irrefl _)
      · exact h
    · intro h; exact Or.inr ⟨rfl, h⟩
  · simp

theorem frameFilename_data (outputDir timestamp : String) :
    (frameFilename outputDir timestamp).data =
      (outputDir.data ++ "/frame_".data) ++ (timestamp.data ++ ".jpg".data) := by
  unfold frameFilename
  simp only [String.data_append, List.append_assoc]

theorem frameFilename_lex (outputDir ts1 ts2 : String)
    (hlen : ts1.data.length = ts2.data.length) :
    lexLess (frameFilename outputDir ts1) (frameFilename outputDir ts2) ↔ lexLess ts1 ts2 := by
  unfold lexLess
  rw [frameFilename_data, frameFilename_data, lex_append_iff _ _ _ _ rfl,
    lex_append_iff _ _ _ _ hlen]
  have h1 := lex_irrefl (outputDir.data ++ "/frame_".data)
  have h2 := lex_irrefl ".jpg".data
  constructor
  · rintro (h | ⟨_, h | ⟨_, h⟩⟩)
    · exact absurd h h1
    · exact h
    · exact absurd h h2
  · intro h; exact Or.inr ⟨rfl, Or.inl h⟩

theorem frameFilename_inj (outputDir ts1 ts2 : String) :
    frameFilename outputDir ts1 = frameFilename outputDir ts2 ↔ ts1 = ts2 := by
  constructor
  · intro h
    have hd := congrArg String.data h
    rw [frameFilename_data, frameFilename_data] at hd
    have h2 := List.append_cancel_left hd
    have h3 := List.append_cancel_right h2
    exact String.ext_iff.mpr h3
  · rintro rfl; rfl

theorem timestamp_order (t1 t2 : Tm) (ms1 ms2 : Nat) (hv1 : t1.valid) (hv2 : t2.valid)
    (hy1 : 1000 ≤ t1.year ∧ t1.year ≤ 9999) (hy2 : 1000 ≤ t2.year ∧ t2.year ≤ 9999) :
    (lexLess (getCurrentTimestamp t1 ms1) (getCurrentTimestamp t2 ms2) ↔
      earlier (stampKey t1 ms1) (stampKey t2 ms2)) ∧
    (getCurrentTimestamp t1 ms1 = getCurrentTimestamp t2 ms2 ↔
      stampKey t1 ms1 = stampKey t2 ms2) := by
  have d1 := getCurrentTimestamp_data t1 ms1 hv1 hy1
  have d2 := getCurrentTimestamp_data t2 ms2 hv2 hy2
  obtain ⟨_, hmo1, _, hd1, hh1, hmi1, hs1⟩ := hv1
  obtain ⟨_, hmo2, _, hd2, hh2, hmi2, hs2⟩ := hv2
  have hms1 : ms1 % 1000 < 1000 := Nat.mod_lt _ (by decide)
  have hms2 : ms2 % 1000 < 1000 := Nat.mod_lt _ (by decide)
  have hnil : ¬ List.Lex (fun a b : Char => a < b) [] [] := lex_irrefl _
  have hnilN : ¬ List.Lex (fun a b : Nat => a < b) [] [] := lex_irrefl _
  constructor
  · unfold lexLess earlier stampKey
    rw [d1, d2,
      (four_digit_blocks t1.year t2.year (by omega) (by omega) _ _).1,
      (two_digit_blocks t1.month t2.month (by omega) (by omega) _ _).1,
      (two_digit_blocks t1.day t2.day (by omega) (by omega) _ _).1,
      (separator_block _ _).1,
      (two_digit_blocks t1.hour t2.hour (by omega) (by omega) _ _).1,
      (two_digit_blocks t1.minute t2.minute (by omega) (by omega) _ _).1,
      (two_digit_blocks t1.second t2.second (by omega) (by omega) _ _).1,
      (separator_block _ _).1,
      (three_digit_blocks (ms1 % 1000) (ms2 % 1000) hms1 hms2 _ _).1]
    simp only [lex_cons_iff, hnil, hnilN, and_false, or_false]
  · rw [String.ext_iff, d1, d2,
      (four_digit_blocks t1.year t2.year (by omega) (by omega) _ _).2,
      (two_digit_blocks t1.month t2.month (by omega) (by omega) _ _).2,
      (two_digit_blocks t1.day t2.day (by omega) (by omega) _ _).2,
      (separator_block _ _).2,
      (two_digit_blocks t1.hour t2.hour (by omega) (by omega) _ _).2,
      (two_digit_blocks t1.minute t2.minute (by omega) (by omega) _ _).2,
      (two_digit_blocks t1.second t2.second (by omega) (by omega) _ _).2,
      (separator_block _ _).2,
      (three_digit_blocks (ms1 % 1000) (ms2 % 1000) hms1 hms2 _ _).2]
    unfold stampKey
    simp only [List.cons.injEq, and_true]

/-! ## The claims -/

/-- Claim C1. For a good (successful, non-empty) frame pulled at steady-clock
time `now`, in any state of the loop: `imwrite` is called in this iteration
exactly when `nextFrameTime ≤ now`; when it is, the emit step leaves
`nextFrameTime = now + (int)frameIntervalMs` milliseconds, whatever the old
deadline and the result of the write; when `now < nextFrameTime` the emit step
changes nothing (deadline, `savedFrames` and `framesThisSecond` are kept). -/
theorem emit_iff_deadline_reached (outputDir : String) (targetFPS : Dbl) (k : Int)
    (hk : advanceMs targetFPS = some k) (st : LoopState) (i : IterInput)
    (hret : i.ret = true) (hne : i.frameEmpty = false) :
    ∃ e t,
      emitStep outputDir targetFPS { st with log := st.log ++ [Effect.read true] } i = some e ∧
      iteration outputDir targetFPS st i = some t ∧ t = heartbeatStep e i ∧
      (persistAttempts t.log = persistAttempts st.log + 1 ↔ st.nextFrameTime ≤ i.now) ∧
      (st.nextFrameTime ≤ i.now →
        e.log = st.log ++ [Effect.read true, Effect.imwrite i.now
          (frameFilename outputDir (getCurrentTimestamp i.wallTm i.wallMs)) i.writeOk] ∧
        e.nextFrameTime = i.now + msToNs k ∧ t.nextFrameTime = i.now + msToNs k) ∧
      (i.now < st.nextFrameTime →
        e = { st with log := st.log ++ [Effect.read true] } ∧
        persistAttempts t.log = persistAttempts st.log ∧
        t.nextFrameTime = st.nextFrameTime ∧ t.savedFrames = st.savedFrames) := by
  by_cases hdue : st.nextFrameTime ≤ i.now
  · have he := emitStep_due outputDir targetFPS k
      { st with log := st.log ++ [Effect.read true] } i hk hdue
    have hit := iteration_of_frame outputDir targetFPS st i hret hne
    rw [he] at hit
    refine ⟨_, _, he, hit, rfl, ?_, ?_, ?_⟩
    · have hs := iteration_summary outputDir targetFPS st _ i hit
      have hD : Due st i := ⟨⟨hret, hne⟩, hdue⟩
      rw [hs.attempts]; simp [hD, hdue]
    · intro _
      refine ⟨by simp, rfl, ?_⟩
      rw [heartbeatStep_nextFrameTime]
    · intro hlt; exact absurd hdue (not_le.mpr hlt)
  · have hlt : i.now < st.nextFrameTime := not_le.mp hdue
    have he := emitStep_early outputDir targetFPS
      { st with log := st.log ++ [Effect.read true] } i hlt
    have hit := iteration_of_frame outputDir targetFPS st i hret hne
    rw [he] at hit
    have hs := iteration_summary outputDir targetFPS st _ i hit
    have hD : ¬ Due st i := fun h => hdue h.2
    refine ⟨_, _, he, hit, rfl, ?_, ?_, ?_⟩
    · rw [hs.attempts]; simp [hD, hdue]
    · intro h; exact absurd h hdue
    · intro _
      refine ⟨rfl, ?_, ?_, ?_⟩
      · rw [hs.attempts]; simp [hD]
      · rw [heartbeatStep_nextFrameTime]
      · rw [heartbeatStep_savedFrames]

/-- Claim C1 at a sample input: 30 FPS, a good frame at time 5 with the first
deadline at 0; the write fails and the deadline still moves to `5 + 33 ms`. -/
theorem emit_iff_deadline_reached_witness :
    advanceMs (Dbl.fin 30) = some 33 ∧
    ∃ t, iteration "/app/frames" (Dbl.fin 30) (initialLoopState 0 0 []) (sampleFrame 5 false) =
        some t ∧
      t.nextFrameTime = 5 + msToNs 33 := by
  obtain ⟨e, t, _, hit, _, _, hdue, _⟩ :=
    emit_iff_deadline_reached "/app/frames" (Dbl.fin 30) 33 advanceMs_30
      (initialLoopState 0 0 [])
      (sampleFrame 5 false) rfl rfl
  exact ⟨advanceMs_30, t, hit, (hdue (by decide)).2.2⟩

/-- Claim C2, amended. For a target rate `f > 0` (a finite `double`) whose
converted interval fits an `int`, the number of milliseconds added to `now`
after an emit is the `double` quotient `1000.0 / f` (the exact quotient rounded
to the nearest `double`, relative error at most `2^-53`) truncated to whole
milliseconds.  So it is at most `(1000 / f) * (1 + 2^-53)`, more than
`(1000 / f) * (1 - 2^-53) - 1`, and equal to `1000 / f` exactly when that
quotient is a whole number. -/
theorem advance_interval_is_truncated_quotient (f : ℚ) (hf : 0 < f) (hfin : f < 2 ^ 1024)
    (hr : roundNearest (1000 / f) < 2147483648) :
    ∃ k : Int, advanceMs (Dbl.fin f) = some k ∧
      frameIntervalMs (Dbl.fin f) = Dbl.fin (roundNearest (1000 / f)) ∧
      k = ⌊roundNearest (1000 / f)⌋ ∧
      |roundNearest (1000 / f) - 1000 / f| ≤ 1000 / f / 2 ^ 53 ∧
      (k : ℚ) ≤ 1000 / f * (1 + 1 / 2 ^ 53) ∧
      1000 / f * (1 - 1 / 2 ^ 53) - 1 < (k : ℚ) ∧
      ((k : ℚ) = 1000 / f ↔ ((1000 : ℚ) / f).den = 1) := by
  have hx : (0 : ℚ) < 1000 / f := by positivity
  have hnormal : (2 : ℚ) ^ (-1022 : Int) ≤ |1000 / f| := by
    rw [abs_of_pos hx, le_div_iff₀ hf]
    have h4 : (2 : ℚ) ^ (-1022 : Int) * 2 ^ 1024 = 4 := by
      rw [zpow_neg, show ((1022 : Int)) = ((1022 : Nat) : Int) by norm_num, zpow_natCast]
      norm_num
    have hpos : (0 : ℚ) < 2 ^ (-1022 : Int) := two_zpow_pos _
    nlinarith
  have hrel := roundNearest_relative (1000 / f) hnormal
  rw [abs_of_pos hx] at hrel
  have hrel2 := abs_le.mp hrel
  have hfl1 := Int.floor_le (roundNearest (1000 / f))
  have hfl2 := Int.lt_floor_add_one (roundNearest (1000 / f))
  refine ⟨⌊roundNearest (1000 / f)⌋, advanceMs_of_pos f hf hr, ?_, rfl, hrel, ?_, ?_, ?_⟩
  · rw [frameIntervalMs_fin f (ne_of_gt hf), ofRat_of_small _ (le_of_lt hx) hr]
  · have : 1000 / f * (1 + 1 / 2 ^ 53) = 1000 / f + 1000 / f / 2 ^ 53 := by ring
    linarith [hrel2.2]
  · have : 1000 / f * (1 - 1 / 2 ^ 53) = 1000 / f - 1000 / f / 2 ^ 53 := by ring
    linarith [hrel2.1]
  · constructor
    · intro h
      rw [← h]
      exact Rat.den_intCast _
    · intro h
      have hnum : (((1000 : ℚ) / f).num : ℚ) = 1000 / f := (Rat.den_eq_one_iff _).mp h
      have hexact : roundNearest (1000 / f) = 1000 / f := by
        by_cases hsmall : |((1000 : ℚ) / f).num| < 2 ^ 53
        · have := roundNearest_intCast ((1000 : ℚ) / f).num hsmall
          rw [hnum] at this
          exact this
        · exfalso
          have hnpos : 0 < ((1000 : ℚ) / f).num := Rat.num_pos.mpr hx
          have hbig : (2 : Int) ^ 53 ≤ ((1000 : ℚ) / f).num := by
            rw [abs_of_pos hnpos] at hsmall
            exact not_lt.mp hsmall
          have hbigq : (2 : ℚ) ^ 53 ≤ 1000 / f := by
            rw [← hnum]
            exact_mod_cast hbig
          have h1 : (2 : ℚ) ^ 53 / 2 ^ 53 ≤ 1000 / f / 2 ^ 53 :=
            div_le_div_of_nonneg_right hbigq (by positivity)
          have h2 : (2 : ℚ) ^ 53 / 2 ^ 53 = 1 := by norm_num
          have h3 : (2147483648 : ℚ) < 2 ^ 53 - 1 := by norm_num
          have h5 : 1000 / f / 2 ^ 53 ≤ 1000 / f / 2 := by
            apply div_le_div_of_nonneg_left (le_of_lt hx) (by norm_num) (by norm_num)
          linarith [hrel2.1]
      rw [hexact, ← hnum, Int.floor_intCast]

/-- The `double` quotient `1000.0 / 30.0` lies strictly between 33 and 34. -/
theorem interval_at_30_fps :
    33 < roundNearest (1000 / 30) ∧ roundNearest (1000 / 30) < 34 := by
  have hb := roundNearest_between (1000 / 30) 5 (by norm_num [abs_of_pos])
    (by norm_num [abs_of_pos]) (by norm_num)
  rw [abs_le] at hb
  have hsmall : (2 : ℚ) ^ ((5 : Int) - 52) / 2 < 1 / 1000 := by
    rw [show ((5 : Int) - 52) = -47 by norm_num, zpow_neg]
    norm_num
  constructor
  · linarith [hb.1]
  · linarith [hb.2]

/-- Claim C2 (amended) at 30 FPS. -/
theorem advance_interval_is_truncated_quotient_witness :
    ∃ k : Int, advanceMs (Dbl.fin 30) = some k ∧
      (k : ℚ) ≤ 1000 / 30 * (1 + 1 / 2 ^ 53) ∧ 1000 / 30 * (1 - 1 / 2 ^ 53) - 1 < (k : ℚ) := by
  obtain ⟨k, h1, _, _, _, h5, h6, _⟩ :=
    advance_interval_is_truncated_quotient 30 (by norm_num) (by norm_num)
      (by linarith [interval_at_30_fps.2])
  exact ⟨k, h1, h5, h6⟩

/-- Counterexample to claim C2 as stated: at 30 FPS the deadline advances by
33 ms, which is not `1000 / 30`. -/
theorem advance_interval_not_exact :
    (0 : ℚ) < 30 ∧ advanceMs (Dbl.fin 30) = some 33 ∧ ((33 : Int) : ℚ) ≠ 1000 / 30 := by
  refine ⟨by norm_num, advanceMs_30, ?_⟩
  norm_num

/-- Claim C3, amended. With frames arriving every `period` nanoseconds from
`t0` on (first deadline not after `t0`), every read and write succeeding and
the flag unset, the fraction written among the first `n` frames pulled tends
to `1 / m`, where `m = framesPerEmit k period` is the least number of periods
that covers the `k` milliseconds the deadline advances by.  When `k` is exactly
`1000 / f` and a whole number of periods, `1 / m` is `f / sourceFPS`.  The
frames written are counted in the history of `imwrite` calls. -/
theorem steady_source_written_fraction (outputDir : String) (f : ℚ) (k : Int)
    (hk : advanceMs (Dbl.fin f) = some k) (period : Int) (hp : 0 < period)
    (t0 tStart tInit : Int) (hinit : tInit ≤ t0) (log0 : List Effect)
    (src : Nat → IterInput)
    (hsrc : ∀ j, (src j).ret = true ∧ (src j).frameEmpty = false ∧
      (src j).writeOk = true ∧ (src j).now = t0 + (j : Int) * period) :
    Filter.Tendsto
      (fun n : ℕ =>
        ((successfulWrites (captureLoop outputDir (Dbl.fin f)
            (initialLoopState tStart tInit log0) (firstPulls src n)).log : ℝ) -
          (successfulWrites log0 : ℝ)) / (n : ℝ))
      Filter.atTop (nhds (1 / (framesPerEmit k period : ℝ))) ∧
    (0 < k → period ∣ msToNs k → (k : ℚ) = 1000 / f →
      1 / (framesPerEmit k period : ℝ) = (f : ℝ) / (1000000000 / (period : ℝ))) := by
  refine ⟨steady_ratio_tendsto outputDir (Dbl.fin f) k hk period hp t0
    (initialLoopState tStart tInit log0) hinit src hsrc, ?_⟩
  intro hkpos hdvd hkf
  have hex := framesPerEmit_exact k period hp hkpos hdvd
  unfold msToNs at hex
  have hexR : (framesPerEmit k period : ℝ) * (period : ℝ) = (k : ℝ) * 1000000 := by
    exact_mod_cast hex
  have hkR : (k : ℝ) = 1000 / (f : ℝ) := by
    have := congrArg (fun q : ℚ => (q : ℝ)) hkf
    simpa using this
  have hkposR : (0 : ℝ) < (k : ℝ) := by exact_mod_cast hkpos
  have hpR : (0 : ℝ) < (period : ℝ) := by exact_mod_cast hp
  have hfne : (f : ℝ) ≠ 0 := by
    intro h0
    rw [h0, div_zero] at hkR
    linarith
  have hmR : (0 : ℝ) < (framesPerEmit k period : ℝ) := by
    exact_mod_cast framesPerEmit_pos k period
  have hkf2 : (k : ℝ) * (f : ℝ) = 1000 := by
    rw [hkR]; field_simp
  rw [div_eq_div_iff (ne_of_gt hmR) (by positivity)]
  field_simp
  nlinarith

/-- Claim C3 (amended) at a 100 FPS source and a 40 FPS target. -/
theorem steady_source_written_fraction_witness :
    Filter.Tendsto
      (fun n : ℕ =>
        ((successfulWrites (captureLoop "/app/frames" (Dbl.fin 40) (initialLoopState 0 0 [])
            (firstPulls (steadySource 0 10000000) n)).log : ℝ) -
          (successfulWrites [] : ℝ)) / (n : ℝ))
      Filter.atTop (nhds (1 / (framesPerEmit 25 10000000 : ℝ))) :=
  (steady_source_written_fraction "/app/frames" 40 25 advanceMs_40 10000000 (by decide)
    0 0 0 (le_refl _) [] (steadySource 0 10000000) (fun _ => ⟨rfl, rfl, rfl, rfl⟩)).1

/-- Counterexample to claim C3 as stated: a 100 FPS source (one frame every
10 ms) and a 40 FPS target.  The deadline advances by 25 ms, so every third
frame is written and the fraction does not tend to `40 / 100`. -/
theorem steady_source_fraction_is_not_rate_quotient :
    (0 : ℚ) < 40 ∧ (40 : ℚ) < 1000000000 / 10000000 ∧
    ¬ Filter.Tendsto
      (fun n : ℕ =>
        (successfulWrites (captureLoop "/app/frames" (Dbl.fin 40) (initialLoopState 0 0 [])
          (firstPulls (steadySource 0 10000000) n)).log : ℝ) / (n : ℝ))
      Filter.atTop (nhds ((40 : ℝ) / (1000000000 / 10000000))) := by
  refine ⟨by norm_num, by norm_num, ?_⟩
  intro h
  have h3 := steady_ratio_tendsto "/app/frames" (Dbl.fin 40) 25 advanceMs_40 10000000
    (by decide) 0 (initialLoopState 0 0 []) (le_refl _) (steadySource 0 10000000)
    (fun _ => ⟨rfl, rfl, rfl, rfl⟩)
  have hm : framesPerEmit 25 10000000 = 3 := by decide
  rw [hm] at h3
  have h4 : Filter.Tendsto
      (fun n : ℕ =>
        (successfulWrites (captureLoop "/app/frames" (Dbl.fin 40) (initialLoopState 0 0 [])
          (firstPulls (steadySource 0 10000000) n)).log : ℝ) / (n : ℝ))
      Filter.atTop (nhds (1 / ((3 : ℕ) : ℝ))) := by
    refine h3.congr ?_
    intro n
    simp [initialLoopState, successfulWrites]
  have := tendsto_nhds_unique h h4
  norm_num at this

/-- Claim C4. For a target rate `f > 0` and any run of the capture loop that
starts with no frame written, the run is defined and the decision times of any
two `imwrite` calls, in the order they were made, differ by at least the
number of milliseconds the deadline advances by (which is not negative). -/
theorem emits_at_least_one_interval_apart (outputDir : String) (f : ℚ) (hf : 0 < f) (k : Int)
    (hk : advanceMs (Dbl.fin f) = some k) (st0 : LoopState) (h0 : emitTimes st0.log = [])
    (xs : List (Bool × IterInput)) :
    0 ≤ k ∧
    captureLoop outputDir (Dbl.fin f) st0 xs ≠ ProcessResult.undefined ∧
    (emitTimes (captureLoop outputDir (Dbl.fin f) st0 xs).log).length =
      persistAttempts (captureLoop outputDir (Dbl.fin f) st0 xs).log ∧
    (emitTimes (captureLoop outputDir (Dbl.fin f) st0 xs).log).Pairwise
      (fun a b => a + msToNs k ≤ b) := by
  have hk0 : 0 ≤ k := advanceMs_nonneg f hf k hk
  have hinit : Spaced k st0 := by
    unfold Spaced; rw [h0]; exact ⟨List.Pairwise.nil, by simp⟩
  have hreach : ∀ u, Reaches outputDir (Dbl.fin f) st0 u → Spaced k u := fun u hr =>
    Reaches.invariant (Spaced k)
      (fun st t i hP ht => spaced_step outputDir (Dbl.fin f) k hk hk0 st t i hP ht) hr hinit
  refine ⟨hk0, captureLoop_defined outputDir (Dbl.fin f) k hk xs st0, emitTimes_length _, ?_⟩
  cases h : captureLoop outputDir (Dbl.fin f) st0 xs with
  | undefined => simp [ProcessResult.log, emitTimes]
  | aborted => simp [ProcessResult.log, emitTimes]
  | inLoop u =>
    exact (hreach u (captureLoop_inLoop outputDir (Dbl.fin f) xs st0 u h).1).1
  | exited code log =>
    obtain ⟨_, _, u, hr, hlog⟩ := captureLoop_exited outputDir (Dbl.fin f) xs st0 code log h
    simp only [ProcessResult.log, hlog, emitTimes_append, emitTimes, List.append_nil]
    exact (hreach u hr).1

/-- Claim C4 at a sample run: 30 FPS and good frames at 0, 10 and 40 ms. -/
theorem emits_at_least_one_interval_apart_witness :
    (0 : ℚ) < 30 ∧ advanceMs (Dbl.fin 30) = some 33 ∧
    (emitTimes (captureLoop "/app/frames" (Dbl.fin 30) (initialLoopState 0 0 [])
        [(true, sampleFrame 0 true), (true, sampleFrame 10000000 true),
         (true, sampleFrame 40000000 false)]).log).Pairwise
      (fun a b => a + msToNs 33 ≤ b) :=
  ⟨by norm_num, advanceMs_30,
    (emits_at_least_one_interval_apart "/app/frames" 30 (by norm_num) 33 advanceMs_30
      (initialLoopState 0 0 []) rfl
      [(true, sampleFrame 0 true), (true, sampleFrame 10000000 true),
       (true, sampleFrame 40000000 false)]).2.2.2⟩

/-- Claim C5. In the capture loop: a failed or empty read makes the calls
release, sleep 1, one reopen, then sleep 2 (reopen failed) or set the buffer
size (reopen succeeded), changes no loop variable and returns to the top of
the loop; while every read of the flag gives `true` the loop is not left,
however many reads and reopens fail (one reopen per failed read, no ceiling);
the loop is left only on a read of the flag that gives `false`, with code 0;
and once the directory exists and the initial connection succeeded, `main`
does not return while the flag is unset. -/
theorem capture_loop_left_only_by_shutdown_flag (outputDir : String) (targetFPS : Dbl)
    (st : LoopState) (xs : List (Bool × IterInput)) :
    (∀ i : IterInput, (i.ret = false ∨ i.frameEmpty = true) →
      iteration outputDir targetFPS st i =
        some { st with log := st.log ++ [Effect.read false, Effect.release, Effect.sleep 1,
          Effect.openStream i.reopenOk,
          if i.reopenOk then Effect.setBufferSize 1 else Effect.sleep 2] }) ∧
    ((∀ x ∈ xs, x.1 = true) →
      ∀ code log, captureLoop outputDir targetFPS st xs ≠ ProcessResult.exited code log) ∧
    (∀ code log, captureLoop outputDir targetFPS st xs = ProcessResult.exited code log →
      code = 0 ∧ ∃ x ∈ xs, x.1 = false) ∧
    ((∀ x ∈ xs, x.1 = true ∧ (x.2.ret = false ∨ x.2.frameEmpty = true)) →
      ∃ u, captureLoop outputDir targetFPS st xs = ProcessResult.inLoop u ∧
        openAttempts u.log = openAttempts st.log + xs.length ∧
        u.savedFrames = st.savedFrames ∧ u.nextFrameTime = st.nextFrameTime) ∧
    (∀ k, advanceMs targetFPS = some k → (∀ x ∈ xs, x.1 = true) →
      ∃ u, captureLoop outputDir targetFPS st xs = ProcessResult.inLoop u) ∧
    (∀ w : MainInput, w.dirOk = true → (connectResult w).opened = true →
      (∀ x ∈ w.iterations, x.1 = true) →
      ∀ code log, main w ≠ ProcessResult.exited code log) := by
  have hnoexit : ∀ (od : String) (fps : Dbl) (s : LoopState) (ys : List (Bool × IterInput)),
      (∀ x ∈ ys, x.1 = true) →
      ∀ code log, captureLoop od fps s ys ≠ ProcessResult.exited code log := by
    intro od fps s ys hall code log h
    obtain ⟨_, ⟨y, hy, hyf⟩, _⟩ := captureLoop_exited od fps ys s code log h
    rw [hall y hy] at hyf
    cases hyf
  refine ⟨?_, hnoexit outputDir targetFPS st xs, ?_, ?_, ?_, ?_⟩
  · intro i hfail
    rw [iteration_of_failed_read outputDir targetFPS st i hfail, reconnectStep_eq]
  · intro code log h
    obtain ⟨hc, hx, _⟩ := captureLoop_exited outputDir targetFPS xs st code log h
    exact ⟨hc, hx⟩
  · intro hall
    obtain ⟨u, hu, h1, h2, _, _, h5⟩ := captureLoop_failures outputDir targetFPS xs st hall
    exact ⟨u, hu, h1, h2, h5⟩
  · intro k hk hall
    exact captureLoop_all_running outputDir targetFPS k hk st xs hall
  · intro w hd hopen hall code log
    rcases main_cases w with ⟨_, hm⟩ | ⟨f, _, hd2, _⟩ | ⟨f, _, _, ho2, _⟩ | ⟨f, _, _, _, hm⟩
    · rw [hm]; simp
    · rw [hd] at hd2; cases hd2
    · rw [hopen] at ho2; cases ho2
    · rw [hm]
      exact hnoexit _ _ _ _ hall code log

/-- Claim C6. With the directory in place and the flag never set during the
initial connection: at most `maxReconnectAttempts = 10` opens are made; when
the first successful open is attempt `j + 1 ≤ 10`, exactly `j + 1` opens are
made and the stream is open; the stream is left closed exactly when the first
10 opens all fail; and (the configuration having parsed, so that line 75 is
reached) `main` returns a non-zero code exactly in that case.  A configuration
that does not parse ends the process at line 54 or 56, before any open. -/
theorem initial_connect_bounded_attempts (w : MainInput) (hd : w.dirOk = true)
    (hrun : ∀ j, w.connectRunning j = true) :
    openAttempts (connectResult w).log ≤ maxReconnectAttempts ∧
    (∀ j, j < maxReconnectAttempts → w.connectOpens j = true →
      (∀ l, l < j → w.connectOpens l = false) →
      (connectResult w).opened = true ∧ openAttempts (connectResult w).log = j + 1) ∧
    ((connectResult w).opened = false ↔
      ∀ j, j < maxReconnectAttempts → w.connectOpens j = false) ∧
    (resolveTargetFPS w.envFps w.envInterval ≠ none →
      ((∃ code log, code ≠ 0 ∧ main w = ProcessResult.exited code log) ↔
        ∀ j, j < maxReconnectAttempts → w.connectOpens j = false)) ∧
    (resolveTargetFPS w.envFps w.envInterval = none → main w = ProcessResult.aborted) := by
  have hfirst : ∀ j, j < maxReconnectAttempts → w.connectOpens j = true →
      (∀ l, l < j → w.connectOpens l = false) →
      (connectResult w).opened = true ∧ openAttempts (connectResult w).log = j + 1 := by
    intro j hj hopen hbefore
    obtain ⟨h1, _, h3⟩ := connectLoop_first_success w.connectRunning w.connectOpens hrun
      maxReconnectAttempts initialConnectState j hj
      (by simpa [initialConnectState] using hopen)
      (by intro l hl; simpa [initialConnectState] using hbefore l hl)
    refine ⟨h1, ?_⟩
    unfold connectResult
    rw [h3]
    simp [initialConnectState, openAttempts]
  have hnone : (∀ j, j < maxReconnectAttempts → w.connectOpens j = false) →
      (connectResult w).opened = false ∧
      openAttempts (connectResult w).log = maxReconnectAttempts := by
    intro hall
    obtain ⟨h1, _, h3, _⟩ := connectLoop_all_fail w.connectRunning w.connectOpens hrun
      maxReconnectAttempts initialConnectState
      (by intro j hj; simpa [initialConnectState] using hall j hj)
    unfold connectResult
    rw [h1, h3]
    simp [initialConnectState, openAttempts]
  have hiff : (connectResult w).opened = false ↔
      ∀ j, j < maxReconnectAttempts → w.connectOpens j = false := by
    constructor
    · intro hclosed j hj
      by_contra hne
      have hex : ∃ j, j < maxReconnectAttempts ∧ w.connectOpens j = true :=
        ⟨j, hj, by simpa using hne⟩
      obtain ⟨j1, hj1, ho1, hb1⟩ := exists_first w.connectOpens maxReconnectAttempts hex
      have := (hfirst j1 hj1 ho1 hb1).1
      rw [hclosed] at this
      cases this
    · intro hall; exact (hnone hall).1
  refine ⟨?_, hfirst, hiff, ?_, main_of_unparsable w⟩
  · by_cases hex : ∃ j, j < maxReconnectAttempts ∧ w.connectOpens j = true
    · obtain ⟨j1, hj1, ho1, hb1⟩ := exists_first w.connectOpens maxReconnectAttempts hex
      rw [(hfirst j1 hj1 ho1 hb1).2]
      omega
    · have hall : ∀ j, j < maxReconnectAttempts → w.connectOpens j = false := by
        intro j hj
        by_contra hne
        exact hex ⟨j, hj, by simpa using hne⟩
      rw [(hnone hall).2]
  · intro hcfg
    obtain ⟨f, hf⟩ := Option.ne_none_iff_exists'.mp hcfg
    constructor
    · rintro ⟨code, log, hcode, hmain⟩
      apply hiff.mp
      by_contra hopen
      have ho : (connectResult w).opened = true := by simpa using hopen
      rw [main_of_connected w f hf hd ho] at hmain
      obtain ⟨hc, _⟩ := captureLoop_exited _ _ _ _ code log hmain
      exact hcode hc
    · intro hall
      exact ⟨1, (connectResult w).log, by decide,
        main_of_connect_failure w f hf hd (hiff.mpr hall)⟩

/-- Claim C6 at a sample run: the third open succeeds after two failures. -/
theorem initial_connect_bounded_attempts_witness :
    connectsOnThirdAttempt.dirOk = true ∧
    (∀ j, connectsOnThirdAttempt.connectRunning j = true) ∧
    openAttempts (connectResult connectsOnThirdAttempt).log = 3 ∧
    (connectResult connectsOnThirdAttempt).opened = true :=
  ⟨rfl, fun _ => rfl,
    ((initial_connect_bounded_attempts connectsOnThirdAttempt rfl (fun _ => rfl)).2.1 2
      (by decide) (by decide) (by decide)).2,
    ((initial_connect_bounded_attempts connectsOnThirdAttempt rfl (fun _ => rfl)).2.1 2
      (by decide) (by decide) (by decide)).1⟩

/-- Claim C7, at the failing input. The directory exists, the first open fails
and the flag is set during the 3-second wait: `main` returns 1, not 0. -/
theorem shutdown_during_connect_exits_nonzero :
    shutdownDuringConnect.dirOk = true ∧
    shutdownDuringConnect.connectRunning 1 = false ∧
    main shutdownDuringConnect =
      ProcessResult.exited 1
        [Effect.createDirectory true, Effect.openStream false, Effect.sleep 3] := by
  refine ⟨rfl, rfl, ?_⟩
  decide

/-- Claim C8, amended. `savedFrames` is 0 when the capture loop is entered.  At
every point of every run it is the number of `imwrite` calls that returned
`true`, held in a 32-bit `int`: equal to that number while fewer than `2^31`
writes have succeeded, and that number reduced modulo `2^32` in general.  The
total reported at shutdown is the same value.  One iteration replaces the
counter by its `int` successor exactly when a write was made and succeeded and
keeps it otherwise (failed write, discarded frame, failed read, reconnect);
below `INT_MAX` that adds exactly 1, so the counter does not decrease.  A run
whose configuration parses and whose interval conversion is defined is
defined. -/
theorem saved_count_equals_successful_writes (w : MainInput) :
    (∀ st, main { w with iterations := [] } = ProcessResult.inLoop st → st.savedFrames = 0) ∧
    (∀ st, main w = ProcessResult.inLoop st →
      st.savedFrames = wrapInt32 (successfulWrites st.log) ∧
      (INT_MIN ≤ st.savedFrames ∧ st.savedFrames ≤ INT_MAX) ∧
      (successfulWrites st.log < 2147483648 →
        st.savedFrames = (successfulWrites st.log : Int))) ∧
    (∀ log, main w = ProcessResult.exited 0 log →
      log.getLast? = some (Effect.reportTotal (wrapInt32 (successfulWrites log))) ∧
      (successfulWrites log < 2147483648 →
        log.getLast? = some (Effect.reportTotal (successfulWrites log : Int)))) ∧
    (∀ (outputDir : String) (targetFPS : Dbl) (st t : LoopState) (i : IterInput),
      iteration outputDir targetFPS st i = some t →
        t.savedFrames =
          (if Due st i ∧ i.writeOk = true then wrapInt32 (st.savedFrames + 1)
           else st.savedFrames) ∧
        successfulWrites t.log =
          successfulWrites st.log + (if Due st i ∧ i.writeOk = true then 1 else 0) ∧
        (INT_MIN ≤ st.savedFrames → st.savedFrames < INT_MAX →
          t.savedFrames = st.savedFrames + (if Due st i ∧ i.writeOk = true then 1 else 0) ∧
          st.savedFrames ≤ t.savedFrames)) ∧
    (∀ f k, resolveTargetFPS w.envFps w.envInterval = some f → advanceMs f = some k →
      main w ≠ ProcessResult.undefined ∧ main w ≠ ProcessResult.aborted) := by
  have hwrap : ∀ n : Nat, n < 2147483648 → wrapInt32 (n : Int) = (n : Int) := by
    intro n hn
    apply wrapInt32_of_range
    · unfold INT_MIN; omega
    · unfold INT_MAX; omega
  refine ⟨?_, ?_, ?_, ?_, ?_⟩
  · intro st h
    rcases main_cases { w with iterations := [] } with
      ⟨_, hm⟩ | ⟨f, _, _, hm⟩ | ⟨f, _, _, _, hm⟩ | ⟨f, _, _, _, hm⟩
    · rw [hm] at h; cases h
    · rw [hm] at h; cases h
    · rw [hm] at h; cases h
    · rw [hm] at h
      simp only [captureLoop, ProcessResult.inLoop.injEq] at h
      subst h
      rfl
  · intro st h
    have hc : st.savedFrames = wrapInt32 (successfulWrites st.log) := (main_reaches w).1 st h
    exact ⟨hc, (counters_fit_int w st h).1, fun hlt => by rw [hc, hwrap _ hlt]⟩
  · intro log h
    obtain ⟨u, hu, hlog⟩ := (main_reaches w).2 0 log h rfl
    have hcount : successfulWrites log = successfulWrites u.log := by
      rw [hlog]; simp [successfulWrites_append, successfulWrites]
    have hlast : log.getLast? = some (Effect.reportTotal u.savedFrames) := by
      rw [hlog]; simp
    have hu2 : u.savedFrames = wrapInt32 (successfulWrites u.log) := hu
    rw [hlast, hcount, hu2]
    exact ⟨rfl, fun hlt => by rw [hwrap _ hlt]⟩
  · intro outputDir targetFPS st t i ht
    have hs := iteration_summary outputDir targetFPS st t i ht
    refine ⟨hs.saved, hs.writes, ?_⟩
    intro hlo hhi
    rw [hs.saved]
    split
    · rw [wrapInt32_of_range _ (by omega) (by unfold INT_MAX at hhi ⊢; omega)]
      constructor
      · rfl
      · omega
    · simp
  · intro f k hcfg hk
    rcases main_cases w with ⟨hnone, _⟩ | ⟨_, _, _, hm⟩ | ⟨_, _, _, _, hm⟩ | ⟨f2, hf2, _, _, hm⟩
    · rw [hcfg] at hnone; cases hnone
    · rw [hm]; simp
    · rw [hm]; simp
    · rw [hm]
      rw [hcfg] at hf2
      injection hf2 with hf2
      subst hf2
      exact ⟨captureLoop_defined _ _ k hk _ _, captureLoop_not_aborted _ _ _ _⟩

/-- Counterexample to claim C8 as stated: at 30 FPS with a good frame every
40 ms every frame is written; after `2^31` of them the history holds
2147483648 successful writes and the `int` counter holds `-2147483648`. -/
theorem saved_count_wraps_at_int_max :
    ∃ st, captureLoop "/app/frames" (Dbl.fin 30) (initialLoopState 0 0 [])
        (firstPulls (steadySource 0 40000000) 2147483648) = ProcessResult.inLoop st ∧
      successfulWrites st.log = 2147483648 ∧ st.savedFrames = -2147483648 := by
  obtain ⟨u, hu, hw⟩ := steady_saved "/app/frames" (Dbl.fin 30) 33 advanceMs_30 40000000
    (by decide) 0 (initialLoopState 0 0 []) (le_refl _) (steadySource 0 40000000)
    (fun _ => ⟨rfl, rfl, rfl, rfl⟩) 2147483648
  have hm : framesPerEmit 33 40000000 = 1 := by decide
  have hcount : successfulWrites u.log = 2147483648 := by
    rw [hw, hm]
    rfl
  have hinit : Counted (initialLoopState 0 0 []) := by
    unfold Counted initialLoopState
    rfl
  have hc : Counted u :=
    Reaches.invariant Counted (fun st t i hP ht => counted_step _ _ st t i hP ht)
      (captureLoop_inLoop _ _ _ _ u hu).1 hinit
  refine ⟨u, hu, hcount, ?_⟩
  unfold Counted at hc
  rw [hc, hcount]
  rfl

/-- Claim C9, amended. When the values read parse: the resolved target FPS is
the `TARGET_FPS` value when that is given, whatever `FRAME_INTERVAL` is;
otherwise, when `FRAME_INTERVAL` is given and positive, the `double` quotient
`1.0 / interval`, that is `1 / interval` rounded to the nearest `double`
(relative error at most `2^-53` in the normal range, 0 for an infinite
interval); otherwise (interval zero, negative or NaN, or neither given) 30.
When a value that is read does not parse, the process is terminated. -/
theorem resolved_target_fps (fps d : Dbl) (interval : ℚ) (other : EnvNumber) :
    resolveTargetFPS (EnvNumber.parsed fps) other = some fps ∧
    (0 < interval →
      resolveTargetFPS EnvNumber.unset (EnvNumber.parsed (Dbl.fin interval)) =
        some (Dbl.ofRat (1 / interval))) ∧
    (0 < interval → (2 : ℚ) ^ (-1022 : Int) ≤ 1 / interval → 1 / interval < 2 ^ 1023 →
      resolveTargetFPS EnvNumber.unset (EnvNumber.parsed (Dbl.fin interval)) =
        some (Dbl.fin (roundNearest (1 / interval))) ∧
      |roundNearest (1 / interval) - 1 / interval| ≤ 1 / interval / 2 ^ 53) ∧
    resolveTargetFPS EnvNumber.unset (EnvNumber.parsed Dbl.posInf) = some (Dbl.fin 0) ∧
    (d.isPositive = false →
      resolveTargetFPS EnvNumber.unset (EnvNumber.parsed d) = some (Dbl.fin 30)) ∧
    resolveTargetFPS EnvNumber.unset EnvNumber.unset = some (Dbl.fin 30) ∧
    resolveTargetFPS EnvNumber.unparsable other = none ∧
    resolveTargetFPS EnvNumber.unset EnvNumber.unparsable = none := by
  have hquot : 0 < interval →
      resolveTargetFPS EnvNumber.unset (EnvNumber.parsed (Dbl.fin interval)) =
        some (Dbl.ofRat (1 / interval)) := resolveTargetFPS_of_positive interval
  refine ⟨rfl, hquot, ?_, rfl, ?_, rfl, rfl, rfl⟩
  · intro h hlo hhi
    have hx : (0 : ℚ) < 1 / interval := by positivity
    have hrel := roundNearest_relative (1 / interval) (by rw [abs_of_pos hx]; exact hlo)
    rw [abs_of_pos hx] at hrel
    have hrel2 := abs_le.mp hrel
    refine ⟨?_, hrel⟩
    rw [hquot h]
    have hr0 := roundNearest_nonneg (1 / interval) (le_of_lt hx)
    have hsmall : 1 / interval / 2 ^ 53 ≤ 1 / interval := by
      apply div_le_self (le_of_lt hx)
      norm_num
    have hlt : roundNearest (1 / interval) < 2 ^ 1024 := by
      have h2 : (2 : ℚ) ^ 1023 + 2 ^ 1023 = 2 ^ 1024 := by norm_num
      linarith [hrel2.2]
    unfold Dbl.ofRat
    rw [if_neg (not_le.mpr hlt), if_neg]
    intro hneg
    have : (0 : ℚ) < 2 ^ 1024 := by positivity
    linarith
  · intro h
    simp [resolveTargetFPS, h]

/-- Counterexample to claim C9 as stated: with only `FRAME_INTERVAL = -2`
given, the resolved rate is 30, not `1 / (-2)`. -/
theorem resolved_target_fps_negative_interval :
    resolveTargetFPS EnvNumber.unset (EnvNumber.parsed (Dbl.fin (-2))) = some (Dbl.fin 30) ∧
    (Dbl.fin 30 : Dbl) ≠ Dbl.fin (1 / (-2 : ℚ)) := by
  constructor
  · simp [resolveTargetFPS, Dbl.isPositive]
  · intro h
    injection h with h
    norm_num at h

/-- Claim C10, amended. For two instants whose local times have valid fields
and 4-digit years: the timestamp has 19 characters, `YYYYMMDD_HHMMSS_mmm`,
each field zero padded, and the file name is it between `/frame_` and `.jpg`;
the name of the first instant sorts before that of the second exactly when its
local (year, month, day, hour, minute, second, millisecond) tuple is the
earlier one; the names are equal exactly when the tuples are.  Instants in the
same millisecond get the same name, and where `std::localtime` gives the two
seconds different answers unless they are the same second, equal names mean
the same millisecond. -/
theorem filenames_sort_chronologically (outputDir : String) (localtime : Nat → Tm)
    (e1 e2 : Nat)
    (hv1 : (localtime (e1 / 1000)).valid) (hv2 : (localtime (e2 / 1000)).valid)
    (hy1 : 1000 ≤ (localtime (e1 / 1000)).year ∧ (localtime (e1 / 1000)).year ≤ 9999)
    (hy2 : 1000 ≤ (localtime (e2 / 1000)).year ∧ (localtime (e2 / 1000)).year ≤ 9999) :
    (timestampAt localtime e1).length = 19 ∧
    (timestampAt localtime e1).data =
      [Nat.digitChar ((localtime (e1 / 1000)).year / 1000),
       Nat.digitChar ((localtime (e1 / 1000)).year / 100 % 10),
       Nat.digitChar ((localtime (e1 / 1000)).year / 10 % 10),
       Nat.digitChar ((localtime (e1 / 1000)).year % 10),
       Nat.digitChar ((localtime (e1 / 1000)).month / 10),
       Nat.digitChar ((localtime (e1 / 1000)).month % 10),
       Nat.digitChar ((localtime (e1 / 1000)).day / 10),
       Nat.digitChar ((localtime (e1 / 1000)).day % 10), '_',
       Nat.digitChar ((localtime (e1 / 1000)).hour / 10),
       Nat.digitChar ((localtime (e1 / 1000)).hour % 10),
       Nat.digitChar ((localtime (e1 / 1000)).minute / 10),
       Nat.digitChar ((localtime (e1 / 1000)).minute % 10),
       Nat.digitChar ((localtime (e1 / 1000)).second / 10),
       Nat.digitChar ((localtime (e1 / 1000)).second % 10), '_',
       Nat.digitChar (e1 % 1000 / 100), Nat.digitChar (e1 % 1000 / 10 % 10),
       Nat.digitChar (e1 % 1000 % 10)] ∧
    (frameFilename outputDir (timestampAt localtime e1)).data =
      outputDir.data ++ ['/', 'f', 'r', 'a', 'm', 'e', '_'] ++
        (timestampAt localtime e1).data ++ ['.', 'j', 'p', 'g'] ∧
    (lexLess (frameFilename outputDir (timestampAt localtime e1))
        (frameFilename outputDir (timestampAt localtime e2)) ↔
      earlier (stampKey (localtime (e1 / 1000)) e1) (stampKey (localtime (e2 / 1000)) e2)) ∧
    (frameFilename outputDir (timestampAt localtime e1) =
        frameFilename outputDir (timestampAt localtime e2) ↔
      stampKey (localtime (e1 / 1000)) e1 = stampKey (localtime (e2 / 1000)) e2) ∧
    (e1 = e2 →
      frameFilename outputDir (timestampAt localtime e1) =
        frameFilename outputDir (timestampAt localtime e2)) ∧
    ((localtime (e1 / 1000) = localtime (e2 / 1000) → e1 / 1000 = e2 / 1000) →
      (frameFilename outputDir (timestampAt localtime e1) =
          frameFilename outputDir (timestampAt localtime e2) ↔ e1 = e2)) := by
  have d1 := getCurrentTimestamp_data (localtime (e1 / 1000)) e1 hv1 hy1
  have d2 := getCurrentTimestamp_data (localtime (e2 / 1000)) e2 hv2 hy2
  have hlen1 : (timestampAt localtime e1).data.length = 19 := by
    unfold timestampAt; rw [d1]; rfl
  have hlen2 : (timestampAt localtime e2).data.length = 19 := by
    unfold timestampAt; rw [d2]; rfl
  have hord := timestamp_order (localtime (e1 / 1000)) (localtime (e2 / 1000)) e1 e2
    hv1 hv2 hy1 hy2
  have hname : frameFilename outputDir (timestampAt localtime e1) =
      frameFilename outputDir (timestampAt localtime e2) ↔
      stampKey (localtime (e1 / 1000)) e1 = stampKey (localtime (e2 / 1000)) e2 := by
    rw [frameFilename_inj]
    exact hord.2
  refine ⟨hlen1, d1, ?_, ?_, hname, ?_, ?_⟩
  · rw [frameFilename_data]
    simp only [List.append_assoc]
  · rw [frameFilename_lex outputDir _ _ (by rw [hlen1, hlen2])]
    exact hord.1
  · rintro rfl; rfl
  · intro hinj
    rw [hname]
    constructor
    · intro hkey
      unfold stampKey at hkey
      simp only [List.cons.injEq, and_true] at hkey
      obtain ⟨hy, hmo, hd, hh, hmi, hs, hms⟩ := hkey
      have htm : localtime (e1 / 1000) = localtime (e2 / 1000) := by
        cases h1 : localtime (e1 / 1000)
        cases h2 : localtime (e2 / 1000)
        rw [h1, h2] at hy hmo hd hh hmi hs
        simp only at hy hmo hd hh hmi hs
        subst hy hmo hd hh hmi hs
        rfl
      have hsec := hinj htm
      omega
    · rintro rfl; rfl

/-- Claim C10 (amended) at two instants 884 ms apart, local time being UTC. -/
theorem filenames_sort_chronologically_witness :
    lexLess
      (frameFilename "/app/frames" (timestampAt (localtimeAtOffset 0) 1715938200123))
      (frameFilename "/app/frames" (timestampAt (localtimeAtOffset 0) 1715938201007)) :=
  (filenames_sort_chronologically "/app/frames" (localtimeAtOffset 0)
    1715938200123 1715938201007 (by decide) (by decide) (by decide) (by decide)).2.2.2.1.mpr
    (by decide)

/-- Counterexample to claim C10 as stated: with `TZ=Europe/Berlin` the instants
1729989000 s (27 October 2024 02:30:00 CEST) and 1729992600 s (02:30:00 CET,
one hour later) have valid local times with 4-digit years and get the same
file name. -/
theorem equal_names_one_hour_apart :
    (berlinLocaltime (1729989000000 / 1000)).valid ∧
    (berlinLocaltime (1729992600000 / 1000)).valid ∧
    (berlinLocaltime (1729989000000 / 1000)).year = 2024 ∧
    (berlinLocaltime (1729992600000 / 1000)).year = 2024 ∧
    timestampAt berlinLocaltime 1729989000000 = "20241027_023000_000" ∧
    frameFilename "/app/frames" (timestampAt berlinLocaltime 1729989000000) =
      frameFilename "/app/frames" (timestampAt berlinLocaltime 1729992600000) ∧
    (1729989000000 : Nat) + 3600000 = 1729992600000 := by
  decide
end CameraIngest
